import Mathlib

/-!
Shallow embedding of the scanner, parser and tree-walking evaluator of a
small scripting-language implementation (Rust sources: `tokenizer.rs`,
`parser.rs`, `interpreter.rs`), together with theorems settling the
specification claims about them.

Modelling conventions:
* Rust `f64` numbers are modelled as `ℚ`.  None of the proved claims depends
  on IEEE-754-specific behaviour (NaN, rounding, overflow).
* Mutable state (`&mut Scanner`, `&mut Parser`, `&mut Environment`) becomes
  explicit state passing.
* The scanner's and parser's `eprintln!` diagnostics are modelled as data
  accumulated in the state (`Scanner.errors`) or carried by the error value
  (`ParseError`), so theorems can speak about what is reported.
* Loops (`while`/`loop`/`for`) and the mutually recursive descent of the
  parser and statement interpreter are written as fuel-indexed recursion;
  running out of fuel yields `none`.  Fuel adequacy — the real code's
  termination — is proved where a claim depends on it (the scanner).
-/

/-! ## Tokenizer (`tokenizer.rs`) -/

/-- Token kinds, from `enum TokenType` in `tokenizer.rs`. -/
inductive TokenType where
  | LeftParen | RightParen | LeftBrace | RightBrace
  | Comma | Dot | Minus | Plus | Semicolon | Slash | Star
  | Bang | BangEqual | Equal | EqualEqual
  | Greater | GreaterEqual | Less | LessEqual
  | Identifier | StringLiteral | Number
  | And | Class | Else | False | Fun | For | If | Nil | Or
  | Print | Return | Super | This | True | Var | While
  | Eof
  deriving DecidableEq, Repr

/-- `get_keyword` from `tokenizer.rs`: reserved words map to keyword kinds. -/
def get_keyword (name : String) : Option TokenType :=
  if name = "and" then some .And
  else if name = "class" then some .Class
  else if name = "else" then some .Else
  else if name = "false" then some .False
  else if name = "fun" then some .Fun
  else if name = "for" then some .For
  else if name = "if" then some .If
  else if name = "nil" then some .Nil
  else if name = "or" then some .Or
  else if name = "print" then some .Print
  else if name = "return" then some .Return
  else if name = "super" then some .Super
  else if name = "this" then some .This
  else if name = "true" then some .True
  else if name = "var" then some .Var
  else if name = "while" then some .While
  else none

/-- `struct Token` from `tokenizer.rs`. -/
structure Token where
  token_type : TokenType
  lexeme : String
  line : Nat
  deriving DecidableEq, Repr

instance : Inhabited Token := ⟨⟨.Eof, "", 0⟩⟩

/-- `struct Scanner` from `tokenizer.rs`.  The extra `errors` field records
the `(line, message)` pairs printed by `Scanner::error` (the Rust code logs
them with `eprintln!` and only keeps the `had_error` flag). -/
structure Scanner where
  source : List Char
  current : Nat
  line : Nat
  had_error : Bool
  errors : List (Nat × String)
  deriving DecidableEq, Repr

/-- `Scanner::new`. -/
def Scanner.new (source : String) : Scanner :=
  { source := source.data, current := 0, line := 1, had_error := false, errors := [] }

/-- `Scanner::has_more`. -/
def Scanner.has_more (s : Scanner) : Bool :=
  s.current < s.source.length

/-- `Scanner::advance`.  The Rust code asserts `has_more`; it is only ever
called when a character is available, so the out-of-range `getD` default is
unreachable. -/
def Scanner.advance (s : Scanner) : Char × Scanner :=
  let c := s.source.getD s.current ' '
  (c, { s with current := s.current + 1, line := if c = '\n' then s.line + 1 else s.line })

/-- `Scanner::peek`. -/
def Scanner.peek (s : Scanner) : Option Char :=
  if s.has_more then some (s.source.getD s.current ' ') else none

/-- `Scanner::peek_next`. -/
def Scanner.peek_next (s : Scanner) : Option Char :=
  if s.current + 1 < s.source.length then some (s.source.getD (s.current + 1) ' ') else none

/-- `Scanner::is_match`. -/
def Scanner.is_match (s : Scanner) (c : Char) : Bool × Scanner :=
  if s.peek = some c then (true, (s.advance).2) else (false, s)

/-- `Scanner::error`: records a lexical error at the current line and sets
`had_error`. -/
def Scanner.error (s : Scanner) (msg : String) : Scanner :=
  { s with had_error := true, errors := s.errors ++ [(s.line, msg)] }

/-- `Scanner::substr`. -/
def Scanner.substr (s : Scanner) (start stop : Nat) : String :=
  String.mk ((s.source.drop start).take (stop - start))

/-- The `//`-comment loop in `scan_token`: consume until past a newline or
to end of input. -/
def skipComment : Nat → Scanner → Option Scanner
  | 0, _ => none
  | fuel + 1, s =>
    if s.has_more then
      if (s.advance).1 = '\n' then some (s.advance).2 else skipComment fuel (s.advance).2
    else some s

/-- The string-literal loop in `scan_token`: consume until a closing `"`;
reaching end of input first records "Unterminated string." (at the line the
scanner has reached by then).  Returns whether the string was terminated. -/
def stringBody : Nat → Scanner → Option (Bool × Scanner)
  | 0, _ => none
  | fuel + 1, s =>
    if s.has_more then
      if (s.advance).1 = '"' then some (true, (s.advance).2) else stringBody fuel (s.advance).2
    else some (false, s.error "Unterminated string.")

/-- The digit-run loops in `scan_token`: consume while the next character is
an ASCII digit. -/
def digitsRun : Nat → Scanner → Option Scanner
  | 0, _ => none
  | fuel + 1, s =>
    match s.peek with
    | some c => if c.isDigit then digitsRun fuel (s.advance).2 else some s
    | none => some s

/-- The identifier loop in `scan_token`: consume while alphanumeric or `_`. -/
def identRun : Nat → Scanner → Option Scanner
  | 0, _ => none
  | fuel + 1, s =>
    match s.peek with
    | some c => if c.isAlphanum || c = '_' then identRun fuel (s.advance).2 else some s
    | none => some s

/-- Build the token emitted at the end of `scan_token`: lexeme
`source[start..current]`, line the scanner's current line. -/
def mkToken (tt : TokenType) (start : Nat) (s : Scanner) : Option (Option Token × Scanner) :=
  some (some { token_type := tt, lexeme := s.substr start s.current, line := s.line }, s)

/-- The body of `scan_token` from `tokenizer.rs` after the initial
`advance`: `start` is the cursor before the advance, `c` the consumed
character, `s1` the scanner after it.  The outer `Option` is fuel
exhaustion of the embedded loops. -/
def scan_token_aux (fuel : Nat) (start : Nat) (c : Char) (s1 : Scanner) :
    Option (Option Token × Scanner) :=
  if c = ' ' || c = '\t' || c = '\n' then some (none, s1)
  else if c = '(' then mkToken .LeftParen start s1
  else if c = ')' then mkToken .RightParen start s1
  else if c = '{' then mkToken .LeftBrace start s1
  else if c = '}' then mkToken .RightBrace start s1
  else if c = ',' then mkToken .Comma start s1
  else if c = '.' then mkToken .Dot start s1
  else if c = '-' then mkToken .Minus start s1
  else if c = '+' then mkToken .Plus start s1
  else if c = ';' then mkToken .Semicolon start s1
  else if c = '*' then mkToken .Star start s1
  else if c = '!' || c = '=' || c = '>' || c = '<' then
    if (s1.is_match '=').1 then
      mkToken (if c = '!' then .BangEqual else if c = '=' then .EqualEqual
               else if c = '>' then .GreaterEqual else .LessEqual) start (s1.is_match '=').2
    else
      mkToken (if c = '!' then .Bang else if c = '=' then .Equal
               else if c = '>' then .Greater else .Less) start (s1.is_match '=').2
  else if c = '/' then
    if (s1.is_match '/').1 then
      match skipComment fuel (s1.is_match '/').2 with
      | some s3 => some (none, s3)
      | none => none
    else mkToken .Slash start (s1.is_match '/').2
  else if c = '"' then
    match stringBody fuel s1 with
    | some (true, s2) => mkToken .StringLiteral start s2
    | some (false, s2) => some (none, s2)
    | none => none
  else if c.isDigit then
    match digitsRun fuel s1 with
    | some s2 =>
      match digitsRun fuel
          (if s2.peek = some '.' && s2.peek_next.any (·.isDigit) then (s2.advance).2 else s2) with
      | some s4 => mkToken .Number start s4
      | none => none
    | none => none
  else if c = '_' || c.isAlpha then
    match identRun fuel s1 with
    | some s2 =>
      mkToken
        (match get_keyword (s2.substr start s2.current) with
         | some kw => kw
         | none => .Identifier) start s2
    | none => none
  else some (none, s1.error ("Unexpected character: " ++ String.singleton c))

/-- `scan_token` from `tokenizer.rs`: consume at least one character, return
a token if one was produced. -/
def scan_token (fuel : Nat) (s : Scanner) : Option (Option Token × Scanner) :=
  scan_token_aux fuel s.current (s.advance).1 (s.advance).2

/-- The `while scanner.has_more()` loop of `tokenize`. -/
def scanAll : Nat → Scanner → Option (List Token × Scanner)
  | 0, _ => none
  | fuel + 1, s =>
    if s.has_more then
      match scan_token fuel s with
      | some (tok, s1) =>
        match scanAll fuel s1 with
        | some (ts, s2) => some (tok.toList ++ ts, s2)
        | none => none
      | none => none
    else some ([], s)

/-- `tokenize` from `tokenizer.rs`, additionally returning the final scanner
state (which holds `had_error` and the recorded errors).  The fuel
`length + 1` is proved adequate below. -/
def tokenizeScan (contents : String) : Option (List Token × Scanner) :=
  let s0 := Scanner.new contents
  (scanAll (s0.source.length + 1) s0).map
    (fun r => (r.1 ++ [{ token_type := .Eof, lexeme := "", line := r.2.line }], r.2))

/-- `tokenize` from `tokenizer.rs`: the token list and the `had_error` flag. -/
def tokenize (contents : String) : Option (List Token × Bool) :=
  (tokenizeScan contents).map (fun r => (r.1, r.2.had_error))

/-! ## AST (`parser.rs` data types) -/

/-- `enum Literal` from `parser.rs`.  Rust `f64` is modelled as `ℚ`. -/
inductive Literal where
  | Number (x : ℚ)
  | String (s : String)
  | True
  | False
  | Nil
  deriving DecidableEq, Repr

/-- `enum UnaryOperator` from `parser.rs`. -/
inductive UnaryOperator where
  | Negative
  | Not
  deriving DecidableEq, Repr

/-- `enum BinaryOperator` from `parser.rs`. -/
inductive BinaryOperator where
  | Equal | NotEqual | Less | LessEqual | Greater | GreaterEqual
  | Add | Sub | Mul | Div
  deriving DecidableEq, Repr

/-- `enum LogicalOperator` from `parser.rs`. -/
inductive LogicalOperator where
  | And
  | Or
  deriving DecidableEq, Repr

/-- `enum Expr` from `parser.rs`: every variant carries a source line.  The
`Box`ed payload structs (`Unary`, `Binary`, `Logical`, `Grouping`, `Assign`,
`Variable`) are inlined into the constructors. -/
inductive Expr where
  | Literal (line : Nat) (lit : Literal)
  | Variable (line : Nat) (name : String)
  | Unary (line : Nat) (op : UnaryOperator) (expr : Expr)
  | Binary (line : Nat) (left : Expr) (op : BinaryOperator) (right : Expr)
  | Logical (line : Nat) (left : Expr) (op : LogicalOperator) (right : Expr)
  | Grouping (line : Nat) (expr : Expr)
  | Assign (line : Nat) (name : String) (rhs : Expr)
  deriving DecidableEq, Repr

/-- `enum Stmt` from `parser.rs`. -/
inductive Stmt where
  | Expr (e : Expr)
  | IfStmt (condition : Expr) (then_branch : Stmt) (else_branch : Option Stmt)
  | Print (e : Expr)
  | Var (name : String) (initializer : Option Expr)
  | Block (stmts : List Stmt)

/-- `struct Program` from `parser.rs`. -/
structure Program where
  stmts : List Stmt

/-! ## Parser (`parser.rs`) -/

/-- Accumulate the value of a run of decimal digits. -/
def digitsVal : List Char → Nat → Nat
  | [], acc => acc
  | c :: cs, acc => digitsVal cs (acc * 10 + (c.toNat - '0'.toNat))

/-- Models `lexeme.parse::<f64>().unwrap()` for the number lexemes the
scanner produces (a digit run, optionally `.` and a digit run), as an exact
rational. -/
def strToNum (s : String) : ℚ :=
  let cs := s.data
  let intDigits := cs.takeWhile (·.isDigit)
  let rest := cs.drop intDigits.length
  let ip : Nat := digitsVal intDigits 0
  match rest with
  | '.' :: fracCs =>
    let fracDigits := fracCs.takeWhile (·.isDigit)
    (ip : ℚ) + (digitsVal fracDigits 0 : ℚ) / ((10 : ℚ) ^ fracDigits.length)
  | _ => (ip : ℚ)

/-- `lexeme[1..lexeme.len() - 1]`: the text between the quotes of a string
literal lexeme. -/
def stripQuotes (s : String) : String :=
  String.mk ((s.data.drop 1).take (s.data.length - 2))

/-- `struct Parser` from `parser.rs`. -/
structure Parser where
  tokens : List Token
  current : Nat
  deriving DecidableEq, Repr

/-- `struct ParseError`, enriched with the diagnostic that `Parser::error`
prints: the offending token's line, the "at" part (`"end"` or the quoted
lexeme) and the message. -/
structure ParseError where
  line : Nat
  at_str : String
  msg : String
  deriving DecidableEq, Repr

/-- Sentinel for fuel exhaustion of the embedded recursion; never produced
on any input whose parse the development reasons about. -/
def fuelErr : ParseError := ⟨0, "", "FUEL"⟩

/-- `Parser::previous`. -/
def Parser.previous (p : Parser) : Token :=
  p.tokens.getD (p.current - 1) default

/-- `Parser::peek`.  The Rust code indexes `tokens[current]`, in bounds
because the token list ends with `Eof` and the parser never advances past
it. -/
def Parser.peek (p : Parser) : Token :=
  p.tokens.getD p.current default

/-- `Parser::check`. -/
def Parser.check (p : Parser) (tt : TokenType) : Bool :=
  p.peek.token_type == tt

/-- `Parser::is_at_end`. -/
def Parser.is_at_end (p : Parser) : Bool :=
  p.peek.token_type == .Eof

/-- `Parser::error`: builds the diagnostic and the `ParseError`. -/
def Parser.error (_p : Parser) (token : Token) (msg : String) : ParseError :=
  ⟨token.line, if token.token_type == .Eof then "end" else "'" ++ token.lexeme ++ "'", msg⟩

/-- `Parser::advance`. -/
def Parser.advance (p : Parser) : Except ParseError Parser :=
  if p.is_at_end then .error (p.error p.peek "Not expecting end of file")
  else .ok { p with current := p.current + 1 }

/-- `Parser::check_advance`. -/
def Parser.check_advance (p : Parser) (tt : TokenType) : Bool × Parser :=
  if p.check tt then (true, { p with current := p.current + 1 }) else (false, p)

/-- `Parser::consume`. -/
def Parser.consume (p : Parser) (tt : TokenType) (msg : String) : Except ParseError Parser :=
  if p.check tt then p.advance else .error (p.error p.peek msg)

/-- `Parser::line`: the line of the current (lookahead) token. -/
def Parser.line (p : Parser) : Nat :=
  p.peek.line

mutual

/-- `Parser::expression`. -/
def Parser.expression : Nat → Parser → Except ParseError (Expr × Parser)
  | 0, _ => .error fuelErr
  | fuel + 1, p => Parser.assignment fuel p

/-- `Parser::assignment`.  Note the Rust order: the right-hand side is parsed
before the target shape is checked, and on success the node takes the line of
the target `Variable` node. -/
def Parser.assignment : Nat → Parser → Except ParseError (Expr × Parser)
  | 0, _ => .error fuelErr
  | fuel + 1, p => do
    let (expr, p1) ← Parser.logic_or fuel p
    let (m, p2) := p1.check_advance .Equal
    if m then
      let equals := p2.previous
      let (rhs, p3) ← Parser.assignment fuel p2
      match expr with
      | .Variable line name => .ok (.Assign line name rhs, p3)
      | _ => .error (p3.error equals "Invalid assignment target")
    else .ok (expr, p1)

/-- `Parser::logic_or` (header: parse the left operand, then loop). -/
def Parser.logic_or : Nat → Parser → Except ParseError (Expr × Parser)
  | 0, _ => .error fuelErr
  | fuel + 1, p => do
    let (expr, p1) ← Parser.logic_and fuel p
    Parser.logic_or_loop fuel expr p1

/-- The `loop` inside `Parser::logic_or`.  The node line is `self.line()`
read after the right operand has been parsed. -/
def Parser.logic_or_loop : Nat → Expr → Parser → Except ParseError (Expr × Parser)
  | 0, _, _ => .error fuelErr
  | fuel + 1, expr, p =>
    let (m, p1) := p.check_advance .Or
    if m then do
      let (right, p2) ← Parser.logic_and fuel p1
      Parser.logic_or_loop fuel (.Logical p2.line expr .Or right) p2
    else .ok (expr, p)

/-- `Parser::logic_and` (header). -/
def Parser.logic_and : Nat → Parser → Except ParseError (Expr × Parser)
  | 0, _ => .error fuelErr
  | fuel + 1, p => do
    let (expr, p1) ← Parser.equality fuel p
    Parser.logic_and_loop fuel expr p1

/-- The `loop` inside `Parser::logic_and`. -/
def Parser.logic_and_loop : Nat → Expr → Parser → Except ParseError (Expr × Parser)
  | 0, _, _ => .error fuelErr
  | fuel + 1, expr, p =>
    let (m, p1) := p.check_advance .And
    if m then do
      let (right, p2) ← Parser.equality fuel p1
      Parser.logic_and_loop fuel (.Logical p2.line expr .And right) p2
    else .ok (expr, p)

/-- `Parser::equality` (header). -/
def Parser.equality : Nat → Parser → Except ParseError (Expr × Parser)
  | 0, _ => .error fuelErr
  | fuel + 1, p => do
    let (expr, p1) ← Parser.comparison fuel p
    Parser.equality_loop fuel expr p1

/-- The `loop` inside `Parser::equality`. -/
def Parser.equality_loop : Nat → Expr → Parser → Except ParseError (Expr × Parser)
  | 0, _, _ => .error fuelErr
  | fuel + 1, expr, p =>
    let op : Option BinaryOperator :=
      match p.peek.token_type with
      | .BangEqual => some .NotEqual
      | .EqualEqual => some .Equal
      | _ => none
    match op with
    | none => .ok (expr, p)
    | some op => do
      let p1 ← p.advance
      let (right, p2) ← Parser.comparison fuel p1
      Parser.equality_loop fuel (.Binary p2.line expr op right) p2

/-- `Parser::comparison` (header). -/
def Parser.comparison : Nat → Parser → Except ParseError (Expr × Parser)
  | 0, _ => .error fuelErr
  | fuel + 1, p => do
    let (expr, p1) ← Parser.term fuel p
    Parser.comparison_loop fuel expr p1

/-- The `loop` inside `Parser::comparison`. -/
def Parser.comparison_loop : Nat → Expr → Parser → Except ParseError (Expr × Parser)
  | 0, _, _ => .error fuelErr
  | fuel + 1, expr, p =>
    let op : Option BinaryOperator :=
      match p.peek.token_type with
      | .Greater => some .Greater
      | .GreaterEqual => some .GreaterEqual
      | .Less => some .Less
      | .LessEqual => some .LessEqual
      | _ => none
    match op with
    | none => .ok (expr, p)
    | some op => do
      let p1 ← p.advance
      let (right, p2) ← Parser.term fuel p1
      Parser.comparison_loop fuel (.Binary p2.line expr op right) p2

/-- `Parser::term` (header). -/
def Parser.term : Nat → Parser → Except ParseError (Expr × Parser)
  | 0, _ => .error fuelErr
  | fuel + 1, p => do
    let (expr, p1) ← Parser.factor fuel p
    Parser.term_loop fuel expr p1

/-- The `loop` inside `Parser::term`. -/
def Parser.term_loop : Nat → Expr → Parser → Except ParseError (Expr × Parser)
  | 0, _, _ => .error fuelErr
  | fuel + 1, expr, p =>
    let op : Option BinaryOperator :=
      match p.peek.token_type with
      | .Minus => some .Sub
      | .Plus => some .Add
      | _ => none
    match op with
    | none => .ok (expr, p)
    | some op => do
      let p1 ← p.advance
      let (right, p2) ← Parser.factor fuel p1
      Parser.term_loop fuel (.Binary p2.line expr op right) p2

/-- `Parser::factor` (header). -/
def Parser.factor : Nat → Parser → Except ParseError (Expr × Parser)
  | 0, _ => .error fuelErr
  | fuel + 1, p => do
    let (expr, p1) ← Parser.unary fuel p
    Parser.factor_loop fuel expr p1

/-- The `loop` inside `Parser::factor`. -/
def Parser.factor_loop : Nat → Expr → Parser → Except ParseError (Expr × Parser)
  | 0, _, _ => .error fuelErr
  | fuel + 1, expr, p =>
    let op : Option BinaryOperator :=
      match p.peek.token_type with
      | .Slash => some .Div
      | .Star => some .Mul
      | _ => none
    match op with
    | none => .ok (expr, p)
    | some op => do
      let p1 ← p.advance
      let (right, p2) ← Parser.unary fuel p1
      Parser.factor_loop fuel (.Binary p2.line expr op right) p2

/-- `Parser::unary`.  `self.line()` is read (Rust argument order) right after
the operator token was consumed, i.e. it is the line of the first token of
the operand. -/
def Parser.unary : Nat → Parser → Except ParseError (Expr × Parser)
  | 0, _ => .error fuelErr
  | fuel + 1, p =>
    let op : Option UnaryOperator :=
      match p.peek.token_type with
      | .Bang => some .Not
      | .Minus => some .Negative
      | _ => none
    match op with
    | some op => do
      let p1 ← p.advance
      let line := p1.line
      let (e, p2) ← Parser.unary fuel p1
      .ok (.Unary line op e, p2)
    | none => Parser.primary fuel p

/-- `Parser::primary`. -/
def Parser.primary : Nat → Parser → Except ParseError (Expr × Parser)
  | 0, _ => .error fuelErr
  | fuel + 1, p => do
    let p1 ← p.advance
    let token := p1.previous
    match token.token_type with
    | .Identifier => .ok (.Variable token.line token.lexeme, p1)
    | .Number => .ok (.Literal token.line (.Number (strToNum token.lexeme)), p1)
    | .StringLiteral => .ok (.Literal token.line (.String (stripQuotes token.lexeme)), p1)
    | .True => .ok (.Literal token.line .True, p1)
    | .False => .ok (.Literal token.line .False, p1)
    | .Nil => .ok (.Literal token.line .Nil, p1)
    | .LeftParen => do
      let (e, p2) ← Parser.expression fuel p1
      let p3 ← p2.consume .RightParen "Expecting `)`"
      .ok (.Grouping token.line e, p3)
    | _ => .error (p1.error token "Unexpected token")

/-- `Parser::declaration`. -/
def Parser.declaration : Nat → Parser → Except ParseError (Stmt × Parser)
  | 0, _ => .error fuelErr
  | fuel + 1, p =>
    let (m, p1) := p.check_advance .Var
    if m then do
      let p2 ← p1.consume .Identifier "Expecting var name"
      let name := p2.previous.lexeme
      let (m2, p3) := p2.check_advance .Equal
      let (initializer, p4) ←
        if m2 then
          (Parser.expression fuel p3).map (fun r => (some r.1, r.2))
        else .ok (none, p3)
      let p5 ← p4.consume .Semicolon "Expecting `;`"
      .ok (.Var name initializer, p5)
    else Parser.stmt fuel p

/-- `Parser::stmt`. -/
def Parser.stmt : Nat → Parser → Except ParseError (Stmt × Parser)
  | 0, _ => .error fuelErr
  | fuel + 1, p =>
    let (m, p1) := p.check_advance .Print
    if m then do
      let (e, p2) ← Parser.expression fuel p1
      let p3 ← p2.consume .Semicolon "Expecting `;`"
      .ok (.Print e, p3)
    else
      let (mb, pb) := p.check_advance .LeftBrace
      if mb then do
        let (stmts, p2) ← Parser.block_loop fuel [] pb
        .ok (.Block stmts, p2)
      else
        let (mi, pIf) := p.check_advance .If
        if mi then do
          let p2 ← pIf.consume .LeftParen "Expecting '('"
          let (condition, p3) ← Parser.expression fuel p2
          let p4 ← p3.consume .RightParen "Expecting ')'"
          let (then_branch, p5) ← Parser.stmt fuel p4
          let (me, p6) := p5.check_advance .Else
          if me then do
            let (else_branch, p7) ← Parser.stmt fuel p6
            .ok (.IfStmt condition then_branch (some else_branch), p7)
          else .ok (.IfStmt condition then_branch none, p6)
        else do
          let (e, p2) ← Parser.expression fuel p
          let p3 ← p2.consume .Semicolon "Expecting `;`"
          .ok (.Expr e, p3)

/-- The `while !check_advance(RightBrace)` loop of the block branch in
`Parser::stmt`. -/
def Parser.block_loop : Nat → List Stmt → Parser → Except ParseError (List Stmt × Parser)
  | 0, _, _ => .error fuelErr
  | fuel + 1, acc, p =>
    let (m, p1) := p.check_advance .RightBrace
    if m then .ok (acc, p1)
    else do
      let (s, p2) ← Parser.declaration fuel p1
      Parser.block_loop fuel (acc ++ [s]) p2

/-- The `while !is_at_end` loop of `Parser::program`. -/
def Parser.program_loop : Nat → List Stmt → Parser → Except ParseError (List Stmt × Parser)
  | 0, _, _ => .error fuelErr
  | fuel + 1, acc, p =>
    if p.is_at_end then .ok (acc, p)
    else do
      let (s, p1) ← Parser.declaration fuel p
      Parser.program_loop fuel (acc ++ [s]) p1

end

/-- `Parser::program`. -/
def Parser.program (fuel : Nat) (p : Parser) : Except ParseError (Program × Parser) :=
  (Parser.program_loop fuel [] p).map (fun r => (⟨r.1⟩, r.2))

/-- Fuel that is amply sufficient for the grammar's bounded descent per
token. -/
def parseFuel (tokens : List Token) : Nat :=
  (tokens.length + 1) * 100

/-- `parse_expr` from `parser.rs`. -/
def parse_expr (tokens : List Token) : Except ParseError Expr :=
  (Parser.expression (parseFuel tokens) ⟨tokens, 0⟩).map (·.1)

/-- `parse_program` from `parser.rs`. -/
def parse_program (tokens : List Token) : Except ParseError Program :=
  (Parser.program (parseFuel tokens) ⟨tokens, 0⟩).map (·.1)

/-! ## Evaluator (`interpreter.rs`) -/

/-- `enum Value` from `interpreter.rs`.  Constructor names are lowercased to
avoid clashing with the Lean types `Bool`/`String`. -/
inductive Value where
  | nil
  | bool (b : Bool)
  | number (x : ℚ)
  | string (s : String)
  deriving DecidableEq, Repr

/-- `impl fmt::Display for Value`: `nil`, `true`/`false`, the number's
decimal form (Rust `{}` prints an integral `f64` without a decimal point),
the raw string text. -/
def Value.display : Value → String
  | .nil => "nil"
  | .bool b => if b then "true" else "false"
  | .number x => if x.den = 1 then toString x.num else toString x
  | .string s => s

/-- `struct RuntimeError` from `interpreter.rs`. -/
structure RuntimeError where
  line : Nat
  msg : String
  deriving DecidableEq, Repr

/-- `to_bool` from `interpreter.rs`: Nil and Bool(false) are the only falsy
values. -/
def to_bool : Value → Bool
  | .nil => false
  | .bool b => b
  | _ => true

/-- `expect_number` from `interpreter.rs`. -/
def expect_number (val : Value) (line : Nat) : Except RuntimeError ℚ :=
  match val with
  | .number x => .ok x
  | _ => .error ⟨line, "Expecting a number"⟩

/-- One scope: Rust `HashMap<String, Value>`, modelled as an association
list with unique keys (`scopeInsert` replaces an existing key in place). -/
def Scope := List (String × Value)

instance : DecidableEq Scope := fun a b => List.hasDecEq a b

/-- `HashMap::get`. -/
def scopeGet (sc : Scope) (name : String) : Option Value :=
  match sc with
  | [] => none
  | (k, v) :: rest => if k = name then some v else scopeGet rest name

/-- `HashMap::contains_key`. -/
def scopeContains (sc : Scope) (name : String) : Bool :=
  (scopeGet sc name).isSome

/-- `HashMap::insert`: replace the binding if the key is present, otherwise
add it. -/
def scopeInsert (sc : Scope) (name : String) (v : Value) : Scope :=
  match sc with
  | [] => [(name, v)]
  | (k, w) :: rest => if k = name then (k, v) :: rest else (k, w) :: scopeInsert rest name v

/-- `struct Environment` from `interpreter.rs`: a stack of scopes.  The Rust
code stores the most local scope LAST and iterates with `.rev()`; here the
most local scope is FIRST, so `get`/`set` traverse in plain order, `push`
conses and `pop` drops the head.  The two representations are mirror images
of each other. -/
structure Environment where
  scopes : List Scope
  deriving DecidableEq

/-- `Environment::get`: innermost-first search over the scope stack. -/
def getScopes (scopes : List Scope) (name : String) : Option Value :=
  match scopes with
  | [] => none
  | sc :: rest =>
    match scopeGet sc name with
    | some v => some v
    | none => getScopes rest name

/-- `Environment::get`. -/
def Environment.get (env : Environment) (name : String) : Option Value :=
  getScopes env.scopes name

/-- `Environment::set`: overwrite the binding in the innermost scope that
contains the name; report `false` (leaving the stack unchanged) if no scope
does. -/
def setScopes (scopes : List Scope) (name : String) (v : Value) : Bool × List Scope :=
  match scopes with
  | [] => (false, [])
  | sc :: rest =>
    if scopeContains sc name then (true, scopeInsert sc name v :: rest)
    else ((setScopes rest name v).1, sc :: (setScopes rest name v).2)

/-- `Environment::set`. -/
def Environment.set (env : Environment) (name : String) (v : Value) : Bool × Environment :=
  ((setScopes env.scopes name v).1, ⟨(setScopes env.scopes name v).2⟩)

/-- `Environment::push`. -/
def Environment.push (env : Environment) : Environment :=
  ⟨[] :: env.scopes⟩

/-- `Environment::pop` (`Vec::pop` is a no-op on an empty vector). -/
def Environment.pop (env : Environment) : Environment :=
  ⟨env.scopes.tail⟩

/-- `Environment::default`: a single (global) scope. -/
def Environment.default : Environment :=
  ⟨[[]]⟩

/-- The value of a literal expression (first arm of `evaluate`). -/
def litValue : Literal → Value
  | .Number x => .number x
  | .String s => .string s
  | .True => .bool true
  | .False => .bool false
  | .Nil => .nil

/-- `evaluate` from `interpreter.rs`.  The environment is threaded through
(and returned also on error, matching the in-place mutation of `&mut
Environment` before a `?` propagates). -/
def evaluate : Expr → Environment → Except RuntimeError Value × Environment
  | .Literal _ l, ctx => (.ok (litValue l), ctx)
  | .Variable line name, ctx =>
    match ctx.get name with
    | some v => (.ok v, ctx)
    | none => (.error ⟨line, "Undefined variable '" ++ name ++ "'."⟩, ctx)
  | .Unary line op e, ctx =>
    match evaluate e ctx with
    | (.ok val, ctx1) =>
      match op with
      | .Negative =>
        match expect_number val line with
        | .ok x => (.ok (.number (-x)), ctx1)
        | .error err => (.error err, ctx1)
      | .Not => (.ok (.bool (!to_bool val)), ctx1)
    | (.error err, ctx1) => (.error err, ctx1)
  | .Grouping _ e, ctx => evaluate e ctx
  | .Binary line left op right, ctx =>
    match evaluate left ctx with
    | (.ok lv, ctx1) =>
      match evaluate right ctx1 with
      | (.ok rv, ctx2) =>
        (match op with
         | .Add =>
           match lv with
           | .number l =>
             (match expect_number rv line with
              | .ok r => .ok (.number (l + r))
              | .error err => .error err)
           | .string l =>
             (match rv with
              | .string r => .ok (.string (l ++ r))
              | _ => .error ⟨line, "Expecting a string"⟩)
           | _ => .error ⟨line, "Expecting a number or a string"⟩
         | .Sub =>
           (match expect_number lv line with
            | .ok l =>
              match expect_number rv line with
              | .ok r => .ok (.number (l - r))
              | .error err => .error err
            | .error err => .error err)
         | .Mul =>
           (match expect_number lv line with
            | .ok l =>
              match expect_number rv line with
              | .ok r => .ok (.number (l * r))
              | .error err => .error err
            | .error err => .error err)
         | .Div =>
           (match expect_number lv line with
            | .ok l =>
              match expect_number rv line with
              | .ok r => .ok (.number (l / r))
              | .error err => .error err
            | .error err => .error err)
         | .Equal => .ok (.bool (lv == rv))
         | .NotEqual => .ok (.bool (lv != rv))
         | .Less =>
           (match expect_number lv line with
            | .ok l =>
              match expect_number rv line with
              | .ok r => .ok (.bool (decide (l < r)))
              | .error err => .error err
            | .error err => .error err)
         | .LessEqual =>
           (match expect_number lv line with
            | .ok l =>
              match expect_number rv line with
              | .ok r => .ok (.bool (decide (l ≤ r)))
              | .error err => .error err
            | .error err => .error err)
         | .Greater =>
           (match expect_number lv line with
            | .ok l =>
              match expect_number rv line with
              | .ok r => .ok (.bool (decide (r < l)))
              | .error err => .error err
            | .error err => .error err)
         | .GreaterEqual =>
           (match expect_number lv line with
            | .ok l =>
              match expect_number rv line with
              | .ok r => .ok (.bool (decide (r ≤ l)))
              | .error err => .error err
            | .error err => .error err), ctx2)
      | (.error err, ctx2) => (.error err, ctx2)
    | (.error err, ctx1) => (.error err, ctx1)
  | .Logical _ left op right, ctx =>
    match evaluate left ctx with
    | (.ok lv, ctx1) =>
      let left_as_bool := to_bool lv
      let eval_right :=
        match op with
        | .And => left_as_bool
        | .Or => !left_as_bool
      if eval_right then evaluate right ctx1 else (.ok lv, ctx1)
    | (.error err, ctx1) => (.error err, ctx1)
  | .Assign line name rhs, ctx =>
    match evaluate rhs ctx with
    | (.ok v, ctx1) =>
      if (ctx1.set name v).1 then (.ok v, (ctx1.set name v).2)
      else (.error ⟨line, "Variable '" ++ name ++ "' not declared before assignment"⟩, ctx1)
    | (.error err, ctx1) => (.error err, ctx1)

mutual

/-- `interpret_stmt` from `interpreter.rs`.  The `List String` component is
the sequence of lines produced by `println!`.  Note the `Block` arm: an
error from a statement inside the block propagates (`?`) BEFORE `ctx.pop()`
runs, so the pushed scope is not popped on the error path. -/
def interpretStmt : Nat → Stmt → Environment → Option (Except RuntimeError Unit × Environment × List String)
  | 0, _, _ => none
  | _ + 1, .Print e, ctx =>
    (match evaluate e ctx with
     | (.ok v, ctx1) => some (.ok (), ctx1, [v.display])
     | (.error err, ctx1) => some (.error err, ctx1, []))
  | _ + 1, .Expr e, ctx =>
    (match evaluate e ctx with
     | (.ok _, ctx1) => some (.ok (), ctx1, [])
     | (.error err, ctx1) => some (.error err, ctx1, []))
  | fuel + 1, .IfStmt condition then_branch else_branch, ctx =>
    (match evaluate condition ctx with
     | (.ok v, ctx1) =>
       if to_bool v then interpretStmt fuel then_branch ctx1
       else
         match else_branch with
         | some eb => interpretStmt fuel eb ctx1
         | none => some (.ok (), ctx1, [])
     | (.error err, ctx1) => some (.error err, ctx1, []))
  | _ + 1, .Var name initializer, ctx =>
    (match
       (match initializer with
        | some e => evaluate e ctx
        | none => (.ok .nil, ctx)) with
     | (.ok v, ctx1) =>
       -- `ctx.scopes[n_scopes - 1].insert(...)`: insert into the innermost
       -- scope (the head in this representation).  The Rust code would
       -- panic on an empty stack; that state is unreachable (see the scope
       -- invariant theorems), and the embedding then leaves `ctx` unchanged.
       (match ctx1.scopes with
        | sc :: rest => some (.ok (), ⟨scopeInsert sc name v :: rest⟩, [])
        | [] => some (.ok (), ctx1, []))
     | (.error err, ctx1) => some (.error err, ctx1, []))
  | fuel + 1, .Block stmts, ctx =>
    (match interpretStmts fuel stmts (ctx.push) with
     | some (.ok (), ctx1, out) => some (.ok (), ctx1.pop, out)
     | some (.error err, ctx1, out) => some (.error err, ctx1, out)
     | none => none)

/-- The `for stmt in stmts` loop of the `Block` arm (and of
`interpret_program`): run statements in order, stopping at the first
error. -/
def interpretStmts : Nat → List Stmt → Environment → Option (Except RuntimeError Unit × Environment × List String)
  | 0, _, _ => none
  | _ + 1, [], ctx => some (.ok (), ctx, [])
  | fuel + 1, s :: rest, ctx =>
    (match interpretStmt fuel s ctx with
     | some (.ok (), ctx1, out1) =>
       match interpretStmts fuel rest ctx1 with
       | some (r, ctx2, out2) => some (r, ctx2, out1 ++ out2)
       | none => none
     | some (.error err, ctx1, out1) => some (.error err, ctx1, out1)
     | none => none)

end

/-- `interpret_program` from `interpreter.rs`: run the program's statements
on a fresh default environment. -/
def interpretProgram (fuel : Nat) (program : Program) : Option (Except RuntimeError Unit × Environment × List String) :=
  interpretStmts fuel program.stmts Environment.default

/-- Modelled from the spec: the CLI glue of the "run"/"evaluate" mode, which
is not among the sources (`main.rs` at this revision only wires up the
`tokenize` mode).  Per the spec's data-flow/§6 contract: scan the source,
stop if any lexical error was reported, parse, stop on a parse error,
otherwise interpret the program, producing the printed lines.  The
interpreter fuel `2 * (tokens + 1)` amply bounds the statement recursion
depth, since every statement node and nesting level consumes at least one
token. -/
def runSource (src : String) : Option (Except RuntimeError Unit × List String) :=
  match tokenize src with
  | none => none
  | some (tokens, herr) =>
    if herr then none
    else
      match parse_program tokens with
      | .error _ => none
      | .ok prog =>
        (interpretProgram (2 * (tokens.length + 1)) prog).map (fun r => (r.1, r.2.2))

/-! ## Auxiliary definitions used by the theorems -/

/-- Whether an expression contains an `Assign` node (the only expression
form that mutates the environment). -/
def hasAssign : Expr → Bool
  | .Literal _ _ => false
  | .Variable _ _ => false
  | .Unary _ _ e => hasAssign e
  | .Binary _ l _ r => hasAssign l || hasAssign r
  | .Logical _ l _ r => hasAssign l || hasAssign r
  | .Grouping _ e => hasAssign e
  | .Assign _ _ _ => true

/-- The scanner's error-flag invariant: `had_error` is set exactly when at
least one error has been recorded. -/
def StInv (s : Scanner) : Prop :=
  s.had_error = true ↔ s.errors ≠ []

/-- What one scanning step guarantees about the scanner state: the source is
untouched, the cursor moves forward and stays in bounds, and the error-flag
invariant is preserved. -/
def ScannerStep (s t : Scanner) : Prop :=
  t.source = s.source ∧ s.current ≤ t.current ∧
    t.current ≤ max s.current s.source.length ∧ (StInv s → StInv t)

/-- The token list of the program `var x = 1; { var x = 2; } print x;`. -/
def c7toks : List Token :=
  [⟨.Var, "var", 1⟩, ⟨.Identifier, "x", 1⟩, ⟨.Equal, "=", 1⟩, ⟨.Number, "1", 1⟩,
   ⟨.Semicolon, ";", 1⟩, ⟨.LeftBrace, "\x7b", 1⟩, ⟨.Var, "var", 1⟩, ⟨.Identifier, "x", 1⟩,
   ⟨.Equal, "=", 1⟩, ⟨.Number, "2", 1⟩, ⟨.Semicolon, ";", 1⟩, ⟨.RightBrace, "\x7d", 1⟩,
   ⟨.Print, "print", 1⟩, ⟨.Identifier, "x", 1⟩, ⟨.Semicolon, ";", 1⟩, ⟨.Eof, "", 1⟩]

/-! ## Scanner lemmas -/

theorem advance_source (s : Scanner) : (s.advance).2.source = s.source := rfl

theorem advance_current (s : Scanner) : (s.advance).2.current = s.current + 1 := rfl

theorem advance_had_error (s : Scanner) : (s.advance).2.had_error = s.had_error := rfl

theorem advance_errors (s : Scanner) : (s.advance).2.errors = s.errors := rfl

theorem error_StInv (s : Scanner) (msg : String) : StInv (s.error msg) := by
  constructor
  · intro _
    simp [Scanner.error]
  · intro _
    rfl

theorem ScannerStep_refl (s : Scanner) : ScannerStep s s :=
  ⟨rfl, le_refl _, le_max_left _ _, fun h => h⟩

theorem ScannerStep_trans {s t u : Scanner} (h1 : ScannerStep s t) (h2 : ScannerStep t u) :
    ScannerStep s u := by
  obtain ⟨e1, l1, b1, i1⟩ := h1
  obtain ⟨e2, l2, b2, i2⟩ := h2
  refine ⟨e2.trans e1, l1.trans l2, ?_, fun h => i2 (i1 h)⟩
  have : max t.current t.source.length ≤ max s.current s.source.length := by
    rw [e1]
    exact max_le (b1.trans (le_refl _)) (le_max_right _ _)
  exact b2.trans this

theorem advance_ScannerStep {s : Scanner} (h : s.has_more = true) :
    ScannerStep s (s.advance).2 := by
  have hlt : s.current < s.source.length := by
    simpa [Scanner.has_more] using h
  refine ⟨rfl, ?_, ?_, ?_⟩
  · rw [advance_current]
    omega
  · rw [advance_current]
    exact le_max_of_le_right (by omega)
  · intro hi
    unfold StInv at hi ⊢
    rw [advance_had_error, advance_errors]
    exact hi

theorem peek_some_has_more {s : Scanner} {c : Char} (h : s.peek = some c) :
    s.has_more = true := by
  unfold Scanner.peek at h
  by_cases hm : s.has_more
  · exact hm
  · simp [hm] at h

theorem is_match_ScannerStep (s : Scanner) (c : Char) : ScannerStep s (s.is_match c).2 := by
  unfold Scanner.is_match
  by_cases h : s.peek = some c
  · simp only [h, if_pos rfl]
    exact advance_ScannerStep (peek_some_has_more h)
  · simp only [if_neg h]
    exact ScannerStep_refl s

theorem skipComment_some :
    ∀ fuel s, s.source.length - s.current < fuel →
      ∃ t, skipComment fuel s = some t ∧ ScannerStep s t := by
  intro fuel
  induction fuel with
  | zero => intro s h; omega
  | succ fuel ih =>
    intro s h
    unfold skipComment
    by_cases hm : s.has_more = true
    · have hlt : s.current < s.source.length := by simpa [Scanner.has_more] using hm
      rw [hm]
      simp only [if_true]
      by_cases hc : (s.advance).1 = '\n'
      · exact ⟨(s.advance).2, by simp [hc], advance_ScannerStep hm⟩
      · have hrem : (s.advance).2.source.length - (s.advance).2.current < fuel := by
          rw [advance_source, advance_current]; omega
        obtain ⟨t, ht, hstep⟩ := ih (s.advance).2 hrem
        exact ⟨t, by simp [hc, ht], ScannerStep_trans (advance_ScannerStep hm) hstep⟩
    · simp only [Bool.not_eq_true] at hm
      rw [hm]
      exact ⟨s, by simp, ScannerStep_refl s⟩

theorem stringBody_some :
    ∀ fuel s, s.source.length - s.current < fuel →
      ∃ b t, stringBody fuel s = some (b, t) ∧ ScannerStep s t := by
  intro fuel
  induction fuel with
  | zero => intro s h; omega
  | succ fuel ih =>
    intro s h
    unfold stringBody
    by_cases hm : s.has_more = true
    · have hlt : s.current < s.source.length := by simpa [Scanner.has_more] using hm
      rw [hm]
      simp only [if_true]
      by_cases hc : (s.advance).1 = '"'
      · exact ⟨true, (s.advance).2, by simp [hc], advance_ScannerStep hm⟩
      · have hrem : (s.advance).2.source.length - (s.advance).2.current < fuel := by
          rw [advance_source, advance_current]; omega
        obtain ⟨b, t, ht, hstep⟩ := ih (s.advance).2 hrem
        exact ⟨b, t, by simp [hc, ht], ScannerStep_trans (advance_ScannerStep hm) hstep⟩
    · simp only [Bool.not_eq_true] at hm
      rw [hm]
      refine ⟨false, s.error "Unterminated string.", by simp, rfl, le_refl _, le_max_left _ _, ?_⟩
      intro _
      exact error_StInv s _

theorem digitsRun_some :
    ∀ fuel s, s.source.length - s.current < fuel →
      ∃ t, digitsRun fuel s = some t ∧ ScannerStep s t := by
  intro fuel
  induction fuel with
  | zero => intro s h; omega
  | succ fuel ih =>
    intro s h
    unfold digitsRun
    cases hp : s.peek with
    | none => exact ⟨s, rfl, ScannerStep_refl s⟩
    | some c =>
      by_cases hd : c.isDigit = true
      · have hm := peek_some_has_more hp
        have hlt : s.current < s.source.length := by simpa [Scanner.has_more] using hm
        have hrem : (s.advance).2.source.length - (s.advance).2.current < fuel := by
          rw [advance_source, advance_current]; omega
        obtain ⟨t, ht, hstep⟩ := ih (s.advance).2 hrem
        exact ⟨t, by simp [hd, ht], ScannerStep_trans (advance_ScannerStep hm) hstep⟩
      · simp only [Bool.not_eq_true] at hd
        exact ⟨s, by simp [hd], ScannerStep_refl s⟩

theorem identRun_some :
    ∀ fuel s, s.source.length - s.current < fuel →
      ∃ t, identRun fuel s = some t ∧ ScannerStep s t := by
  intro fuel
  induction fuel with
  | zero => intro s h; omega
  | succ fuel ih =>
    intro s h
    unfold identRun
    cases hp : s.peek with
    | none => exact ⟨s, rfl, ScannerStep_refl s⟩
    | some c =>
      by_cases hd : (c.isAlphanum || c = '_') = true
      · have hm := peek_some_has_more hp
        have hlt : s.current < s.source.length := by simpa [Scanner.has_more] using hm
        have hrem : (s.advance).2.source.length - (s.advance).2.current < fuel := by
          rw [advance_source, advance_current]; omega
        obtain ⟨t, ht, hstep⟩ := ih (s.advance).2 hrem
        exact ⟨t, by simp [hd, ht], ScannerStep_trans (advance_ScannerStep hm) hstep⟩
      · simp only [Bool.not_eq_true] at hd
        exact ⟨s, by simp [hd], ScannerStep_refl s⟩

theorem error_ScannerStep (s : Scanner) (msg : String) : ScannerStep s (s.error msg) :=
  ⟨rfl, le_refl _, le_max_left _ _, fun _ => error_StInv s msg⟩

theorem scan_token_aux_some (fuel : Nat) (start : Nat) (c : Char) (s1 : Scanner)
    (hrem : s1.source.length - s1.current < fuel) :
    ∃ r, scan_token_aux fuel start c s1 = some r ∧ ScannerStep s1 r.2 := by
  unfold scan_token_aux
  by_cases h1 : (c = ' ' || c = '\t' || c = '\n') = true
  · rw [if_pos h1]
    exact ⟨(none, s1), rfl, ScannerStep_refl s1⟩
  rw [if_neg h1]
  by_cases h2 : c = '('
  · rw [if_pos h2]
    exact ⟨_, rfl, ScannerStep_refl s1⟩
  rw [if_neg h2]
  by_cases h3 : c = ')'
  · rw [if_pos h3]
    exact ⟨_, rfl, ScannerStep_refl s1⟩
  rw [if_neg h3]
  by_cases h4 : c = '{'
  · rw [if_pos h4]
    exact ⟨_, rfl, ScannerStep_refl s1⟩
  rw [if_neg h4]
  by_cases h5 : c = '}'
  · rw [if_pos h5]
    exact ⟨_, rfl, ScannerStep_refl s1⟩
  rw [if_neg h5]
  by_cases h6 : c = ','
  · rw [if_pos h6]
    exact ⟨_, rfl, ScannerStep_refl s1⟩
  rw [if_neg h6]
  by_cases h7 : c = '.'
  · rw [if_pos h7]
    exact ⟨_, rfl, ScannerStep_refl s1⟩
  rw [if_neg h7]
  by_cases h8 : c = '-'
  · rw [if_pos h8]
    exact ⟨_, rfl, ScannerStep_refl s1⟩
  rw [if_neg h8]
  by_cases h9 : c = '+'
  · rw [if_pos h9]
    exact ⟨_, rfl, ScannerStep_refl s1⟩
  rw [if_neg h9]
  by_cases h10 : c = ';'
  · rw [if_pos h10]
    exact ⟨_, rfl, ScannerStep_refl s1⟩
  rw [if_neg h10]
  by_cases h11 : c = '*'
  · rw [if_pos h11]
    exact ⟨_, rfl, ScannerStep_refl s1⟩
  rw [if_neg h11]
  by_cases h12 : (c = '!' || c = '=' || c = '>' || c = '<') = true
  · rw [if_pos h12]
    by_cases hm2 : (s1.is_match '=').1 = true
    · rw [if_pos hm2]
      exact ⟨_, rfl, is_match_ScannerStep s1 '='⟩
    · rw [if_neg hm2]
      exact ⟨_, rfl, is_match_ScannerStep s1 '='⟩
  rw [if_neg h12]
  by_cases h13 : c = '/'
  · rw [if_pos h13]
    have hstepm : ScannerStep s1 (s1.is_match '/').2 := is_match_ScannerStep s1 '/'
    by_cases hm2 : (s1.is_match '/').1 = true
    · rw [if_pos hm2]
      have hrem2 : ((s1.is_match '/').2).source.length -
          ((s1.is_match '/').2).current < fuel := by
        have ha := hstepm.1
        have hb := hstepm.2.1
        rw [ha]
        omega
      obtain ⟨t, ht, hstept⟩ := skipComment_some fuel _ hrem2
      rw [ht]
      exact ⟨(none, t), rfl, ScannerStep_trans hstepm hstept⟩
    · rw [if_neg hm2]
      exact ⟨_, rfl, hstepm⟩
  rw [if_neg h13]
  by_cases h14 : c = '"'
  · rw [if_pos h14]
    obtain ⟨b, t, ht, hstept⟩ := stringBody_some fuel s1 hrem
    rw [ht]
    cases b with
    | true => exact ⟨_, rfl, hstept⟩
    | false => exact ⟨(none, t), rfl, hstept⟩
  rw [if_neg h14]
  by_cases h15 : c.isDigit = true
  · rw [if_pos h15]
    obtain ⟨s2, hd2, hstepd⟩ := digitsRun_some fuel s1 hrem
    have hlen2 : s2.source = s1.source := hstepd.1
    have hge2 : s1.current ≤ s2.current := hstepd.2.1
    simp only [hd2]
    by_cases hdot : (s2.peek = some '.' && s2.peek_next.any (fun x => x.isDigit)) = true
    · have hpk : s2.peek = some '.' := by
        rw [Bool.and_eq_true] at hdot
        exact of_decide_eq_true hdot.1
      have hmore2 : s2.has_more = true := peek_some_has_more hpk
      have hlt2 : s2.current < s2.source.length := by
        simpa [Scanner.has_more] using hmore2
      have hrem3 : (s2.advance).2.source.length - (s2.advance).2.current < fuel := by
        rw [advance_source, advance_current]
        rw [hlen2] at hlt2 ⊢
        omega
      obtain ⟨s4, h4, hstep4⟩ := digitsRun_some fuel (s2.advance).2 hrem3
      rw [if_pos hdot]
      simp only [h4]
      exact ⟨_, rfl,
        ScannerStep_trans hstepd (ScannerStep_trans (advance_ScannerStep hmore2) hstep4)⟩
    · have hrem3 : s2.source.length - s2.current < fuel := by
        rw [hlen2]
        omega
      obtain ⟨s4, h4, hstep4⟩ := digitsRun_some fuel s2 hrem3
      rw [if_neg hdot]
      simp only [h4]
      exact ⟨_, rfl, ScannerStep_trans hstepd hstep4⟩
  rw [if_neg h15]
  by_cases h16 : (c = '_' || c.isAlpha) = true
  · rw [if_pos h16]
    obtain ⟨s2, h2, hstepd⟩ := identRun_some fuel s1 hrem
    simp only [h2]
    exact ⟨_, rfl, hstepd⟩
  · rw [if_neg h16]
    exact ⟨(none, s1.error ("Unexpected character: " ++ String.singleton c)), rfl,
      error_ScannerStep s1 _⟩

theorem scan_token_some (fuel : Nat) (s : Scanner) (hm : s.has_more = true)
    (hf : s.source.length - s.current ≤ fuel) :
    ∃ r, scan_token fuel s = some r ∧ ScannerStep s r.2 ∧ s.current < r.2.current := by
  have hlt : s.current < s.source.length := by simpa [Scanner.has_more] using hm
  have hstep1 : ScannerStep s (s.advance).2 := advance_ScannerStep hm
  have hrem1 : (s.advance).2.source.length - (s.advance).2.current < fuel := by
    rw [advance_source, advance_current]; omega
  obtain ⟨r, hr, hstep2⟩ := scan_token_aux_some fuel s.current (s.advance).1 (s.advance).2 hrem1
  refine ⟨r, hr, ScannerStep_trans hstep1 hstep2, ?_⟩
  have h1 : (s.advance).2.current ≤ r.2.current := hstep2.2.1
  have h2 : (s.advance).2.current = s.current + 1 := advance_current s
  omega

theorem scanAll_some :
    ∀ fuel s, s.source.length - s.current < fuel →
      ∃ ts t, scanAll fuel s = some (ts, t) ∧ t.source = s.source ∧ (StInv s → StInv t) := by
  intro fuel
  induction fuel with
  | zero => intro s h; omega
  | succ fuel ih =>
    intro s h
    unfold scanAll
    by_cases hm : s.has_more = true
    · rw [if_pos hm]
      have hlt : s.current < s.source.length := by simpa [Scanner.has_more] using hm
      obtain ⟨r, hr, hstep, hcur⟩ := scan_token_some fuel s hm (by omega)
      obtain ⟨hsrc, hge, hbound, hinv⟩ := hstep
      rcases r with ⟨tok, t1⟩
      simp only [hr]
      have hlen1 : t1.source.length = s.source.length := by rw [hsrc]
      have hmax : t1.current ≤ s.source.length := by
        have := hbound
        rw [max_eq_right (le_of_lt hlt)] at this
        exact this
      have hrem : t1.source.length - t1.current < fuel := by
        rw [hlen1]
        simp only at hcur
        omega
      obtain ⟨ts, t, hts, hsrc2, hinv2⟩ := ih t1 hrem
      simp only [hts]
      exact ⟨tok.toList ++ ts, t, rfl, hsrc2.trans hsrc, fun hi => hinv2 (hinv hi)⟩
    · rw [if_neg hm]
      exact ⟨[], s, rfl, rfl, fun hi => hi⟩

/-- C8: for every input, `tokenize` completes within its fuel (the embedded
form of: the Rust scan, whose cursor strictly advances, terminates and never
panics), the returned token list ends with the `Eof` token, and `had_error`
is true exactly when at least one lexical error was recorded.  The concrete
conjuncts exhibit error recovery: an unterminated string and an unexpected
character each record an error and emit no token, while valid tokens before
and after the offending construct are still emitted. -/
theorem claim_C8 :
    (∀ contents : String, ∃ ts t, tokenizeScan contents = some (ts, t) ∧
      ts ≠ [] ∧ ts.getLast? = some ⟨.Eof, "", t.line⟩ ∧
      (t.had_error = true ↔ t.errors ≠ [])) ∧
    tokenize "+ \"abc" = some ([⟨.Plus, "+", 1⟩, ⟨.Eof, "", 1⟩], true) ∧
    (tokenizeScan "+ \"abc").map (fun r => r.2.errors) = some [(1, "Unterminated string.")] ∧
    tokenize "@ +" = some ([⟨.Plus, "+", 1⟩, ⟨.Eof, "", 1⟩], true) ∧
    (tokenizeScan "@ +").map (fun r => r.2.errors) = some [(1, "Unexpected character: @")] := by
  refine ⟨?_, by rfl, by rfl, by rfl, by rfl⟩
  intro contents
  obtain ⟨ts, t, hts, hsrc, hinv⟩ :=
    scanAll_some ((Scanner.new contents).source.length + 1) (Scanner.new contents)
      (by simp [Scanner.new])
  refine ⟨ts ++ [⟨.Eof, "", t.line⟩], t, ?_, by simp, ?_, ?_⟩
  · show (Option.map
        (fun r => (r.1 ++ [{ token_type := .Eof, lexeme := "", line := r.2.line }], r.2))
        (scanAll ((Scanner.new contents).source.length + 1) (Scanner.new contents))) = _
    rw [hts]
    rfl
  · exact List.getLast?_concat ts
  · refine hinv ?_
    constructor
    · intro hfalse
      simp [Scanner.new] at hfalse
    · intro hne
      exact absurd rfl hne

theorem stringBody_unterminated :
    ∀ fuel s, s.current ≤ s.source.length → s.source.length - s.current < fuel →
      (∀ c ∈ s.source.drop s.current, c ≠ '"') →
      ∃ t, stringBody fuel s = some (false, t) ∧ t.source = s.source ∧
        t.current = s.source.length ∧
        t.line = s.line + (s.source.drop s.current).count '\n' ∧
        t.had_error = true ∧
        t.errors = s.errors ++ [(t.line, "Unterminated string.")] := by
  intro fuel
  induction fuel with
  | zero => intro s hb h _; omega
  | succ fuel ih =>
    intro s hb h hnq
    unfold stringBody
    by_cases hm : s.has_more = true
    · have hlt : s.current < s.source.length := by simpa [Scanner.has_more] using hm
      rw [if_pos hm]
      have hdrop : s.source.drop s.current =
          s.source[s.current] :: s.source.drop (s.current + 1) :=
        List.drop_eq_getElem_cons hlt
      have hc : (s.advance).1 = s.source[s.current] := by
        show s.source.getD s.current ' ' = _
        simp [List.getD_eq_getElem, hlt]
      have hcne : (s.advance).1 ≠ '"' := by
        rw [hc]
        exact hnq _ (by rw [hdrop]; exact List.mem_cons_self _ _)
      rw [if_neg hcne]
      have hb2 : (s.advance).2.current ≤ (s.advance).2.source.length := by
        rw [advance_source, advance_current]; omega
      have hrem2 : (s.advance).2.source.length - (s.advance).2.current < fuel := by
        rw [advance_source, advance_current]; omega
      have hdrop2 : (s.advance).2.source.drop ((s.advance).2.current) =
          s.source.drop (s.current + 1) := by
        rw [advance_source, advance_current]
      have hnq2 : ∀ c ∈ (s.advance).2.source.drop ((s.advance).2.current), c ≠ '"' := by
        intro c hcmem
        rw [hdrop2] at hcmem
        exact hnq c (by rw [hdrop]; exact List.mem_cons_of_mem _ hcmem)
      obtain ⟨t, ht, hsrc, hcur, hline, herr, herrs⟩ := ih (s.advance).2 hb2 hrem2 hnq2
      refine ⟨t, ht, hsrc.trans (advance_source s), ?_, ?_, herr, ?_⟩
      · rw [hcur, advance_source]
      · rw [hline, hdrop2, hdrop, List.count_cons]
        by_cases hnl : s.source[s.current] = '\n'
        · have : (s.advance).2.line = s.line + 1 := by
            show (if (s.advance).1 = '\n' then s.line + 1 else s.line) = _
            rw [if_pos (hc.trans hnl)]
          rw [this, hnl]
          simp
          omega
        · have : (s.advance).2.line = s.line := by
            show (if (s.advance).1 = '\n' then s.line + 1 else s.line) = _
            rw [if_neg (by rw [hc]; exact hnl)]
          rw [this]
          simp [hnl]
      · rw [herrs, advance_errors]
    · rw [if_neg hm]
      have hge : s.source.length ≤ s.current := by
        simp [Scanner.has_more] at hm
        exact hm
      have hcur : s.current = s.source.length := le_antisymm hb hge
      have hdropnil : s.source.drop s.current = [] := List.drop_eq_nil_of_le hge
      refine ⟨s.error "Unterminated string.", rfl, rfl, ?_, ?_, rfl, ?_⟩
      · show s.current = _
        exact hcur
      · show s.line = _
        rw [hdropnil]
        simp
      · show s.errors ++ [(s.line, "Unterminated string.")] = _
        rfl

/-- C3, counterexample: in `"a⏎b` (an unterminated string whose body spans a
newline) the opening `"` is the first character of the source and is scanned
while the line counter is 1, yet the "Unterminated string." error is
recorded at line 2 — the line the scanner has reached at end of input — not
at the opening line, refuting the claim's "reported at the line on which the
opening `\"` appears". -/
theorem claim_C3_cex :
    (tokenizeScan "\"a\nb").map (fun r => r.2.errors) = some [(2, "Unterminated string.")] ∧
    (Scanner.new "\"a\nb").line = 1 ∧
    (Scanner.new "\"a\nb").source.getD 0 ' ' = '"' ∧
    (2 : Nat) ≠ 1 := by
  exact ⟨by rfl, rfl, rfl, by decide⟩

/-- C3, amended: when a `"` opens a string that reaches end of input with no
closing `"`, the scanner consumes the rest of the input, records exactly one
"Unterminated string." error — at the line reached at end of input, i.e. the
opening line plus the number of newlines in the unterminated body (equal to
the opening line only when the body stays on one line) — sets `had_error`,
and emits no token for the string. -/
theorem claim_C3_amended (fuel : Nat) (s : Scanner) (rest : List Char)
    (hdrop : s.source.drop s.current = '"' :: rest)
    (hnq : ∀ c ∈ rest, c ≠ '"')
    (hf : s.source.length - s.current ≤ fuel) :
    ∃ t, scan_token fuel s = some (none, t) ∧ t.had_error = true ∧
      t.line = s.line + rest.count '\n' ∧
      t.errors = s.errors ++ [(t.line, "Unterminated string.")] := by
  have hlt : s.current < s.source.length := by
    by_contra hge
    push_neg at hge
    rw [List.drop_eq_nil_of_le hge] at hdrop
    simp at hdrop
  have hsplit : s.source[s.current] :: s.source.drop (s.current + 1) = '"' :: rest := by
    rw [← List.drop_eq_getElem_cons hlt, hdrop]
  have hd0 : s.source[s.current] = '"' := by injection hsplit
  have h22 : s.source.drop (s.current + 1) = rest := by injection hsplit
  have hc : (s.advance).1 = '"' := by
    have hcg : (s.advance).1 = s.source[s.current] := by
      show s.source.getD s.current ' ' = _
      simp [List.getD_eq_getElem, hlt]
    rw [hcg, hd0]
  have hs1cur : (s.advance).2.current = s.current + 1 := advance_current s
  have hs1src : (s.advance).2.source = s.source := advance_source s
  have hs1line : (s.advance).2.line = s.line := by
    show (if (s.advance).1 = '\n' then s.line + 1 else s.line) = s.line
    rw [if_neg (by rw [hc]; decide)]
  have hdrop1 : (s.advance).2.source.drop ((s.advance).2.current) = rest := by
    rw [hs1src, hs1cur, h22]
  have hnq1 : ∀ c ∈ (s.advance).2.source.drop ((s.advance).2.current), c ≠ '"' := by
    rw [hdrop1]
    exact hnq
  obtain ⟨t, ht, hsrc, hcur, hline, herr, herrs⟩ :=
    stringBody_unterminated fuel (s.advance).2
      (by rw [hs1src, hs1cur]; omega) (by rw [hs1src, hs1cur]; omega) hnq1
  refine ⟨t, ?_, herr, ?_, ?_⟩
  · show scan_token_aux fuel s.current (s.advance).1 (s.advance).2 = some (none, t)
    rw [hc]
    show (match stringBody fuel (s.advance).2 with
          | some (true, s2) => mkToken .StringLiteral s.current s2
          | some (false, s2) => some (none, s2)
          | none => none) = some (none, t)
    rw [ht]
  · rw [hline, hs1line, hdrop1]
  · rw [herrs, advance_errors]

/-- Witness for C3's amended theorem at the concrete input `"a⏎b`: the
opening `"` is on line 1, the error is recorded at line 2. -/
theorem claim_C3_witness :
    (Scanner.new "\"a\nb").source.drop (Scanner.new "\"a\nb").current = '"' :: ['a', '\n', 'b'] ∧
    (∀ c ∈ ['a', '\n', 'b'], c ≠ '"') ∧
    (Scanner.new "\"a\nb").source.length - (Scanner.new "\"a\nb").current ≤ 4 ∧
    (∃ t, scan_token 4 (Scanner.new "\"a\nb") = some (none, t) ∧ t.had_error = true ∧
      t.line = (Scanner.new "\"a\nb").line + (['a', '\n', 'b'].count '\n') ∧
      t.errors = (Scanner.new "\"a\nb").errors ++ [(t.line, "Unterminated string.")]) :=
  ⟨by decide, by decide, by decide,
    claim_C3_amended 4 (Scanner.new "\"a\nb") ['a', '\n', 'b']
      (by decide) (by decide) (by decide)⟩

/-- C2, counterexample: for the tokens of `1 +⏎2` the `+` operator token is
on line 1, but the parser stores in the `Binary` node the line of the
lookahead token after the right operand was parsed (here the `Eof` token on
line 2): the node records 2, not 1. -/
theorem claim_C2_cex :
    parse_expr [⟨.Number, "1", 1⟩, ⟨.Plus, "+", 1⟩, ⟨.Number, "2", 2⟩, ⟨.Eof, "", 2⟩]
      = .ok (.Binary 2 (.Literal 1 (.Number 1)) .Add (.Literal 2 (.Number 2))) ∧
    (2 : Nat) ≠ 1 := by
  exact ⟨by rfl, by decide⟩

theorem exceptBind_ok {ε α β : Type} (a : α) (f : α → Except ε β) :
    (Except.ok (ε := ε) a >>= f) = f a := rfl

/-- C2, amended, universally over all parser states.  Each line-carrying
node constructor occurs at exactly one family of construction sites in the
parser — `.Binary` only in the four binary loops, `.Logical` only in the two
logical loops, `.Unary` only in `Parser.unary`, `.Assign` only in
`Parser.assignment`, `.Grouping` only in `Parser.primary` — so the
conjunction below covers every node the parser produces.  At every binary
and logical site the node records `p2.line`, the line of the lookahead token
at the state `p2` reached after the right operand was consumed (NOT the
operator token's line); at the unary site it records `p1.line`, the line of
the token immediately after the operator (the operand's first token); at the
assignment site it records the target `Variable` node's line (not the `=`
token's); only the grouping site records the line of the consumed `(`
token, as the original claim states. -/
theorem claim_C2_amended :
    (∀ (fuel : Nat) (expr : Expr) (p : Parser) (op : BinaryOperator) (p1 : Parser)
       (right : Expr) (p2 : Parser),
      (match p.peek.token_type with
       | TokenType.Minus => some BinaryOperator.Sub
       | TokenType.Plus => some BinaryOperator.Add
       | _ => none) = some op →
      p.advance = .ok p1 → Parser.factor fuel p1 = .ok (right, p2) →
      Parser.term_loop (fuel + 1) expr p =
        Parser.term_loop fuel (.Binary p2.line expr op right) p2) ∧
    (∀ (fuel : Nat) (expr : Expr) (p : Parser) (op : BinaryOperator) (p1 : Parser)
       (right : Expr) (p2 : Parser),
      (match p.peek.token_type with
       | TokenType.Slash => some BinaryOperator.Div
       | TokenType.Star => some BinaryOperator.Mul
       | _ => none) = some op →
      p.advance = .ok p1 → Parser.unary fuel p1 = .ok (right, p2) →
      Parser.factor_loop (fuel + 1) expr p =
        Parser.factor_loop fuel (.Binary p2.line expr op right) p2) ∧
    (∀ (fuel : Nat) (expr : Expr) (p : Parser) (op : BinaryOperator) (p1 : Parser)
       (right : Expr) (p2 : Parser),
      (match p.peek.token_type with
       | TokenType.Greater => some BinaryOperator.Greater
       | TokenType.GreaterEqual => some BinaryOperator.GreaterEqual
       | TokenType.Less => some BinaryOperator.Less
       | TokenType.LessEqual => some BinaryOperator.LessEqual
       | _ => none) = some op →
      p.advance = .ok p1 → Parser.term fuel p1 = .ok (right, p2) →
      Parser.comparison_loop (fuel + 1) expr p =
        Parser.comparison_loop fuel (.Binary p2.line expr op right) p2) ∧
    (∀ (fuel : Nat) (expr : Expr) (p : Parser) (op : BinaryOperator) (p1 : Parser)
       (right : Expr) (p2 : Parser),
      (match p.peek.token_type with
       | TokenType.BangEqual => some BinaryOperator.NotEqual
       | TokenType.EqualEqual => some BinaryOperator.Equal
       | _ => none) = some op →
      p.advance = .ok p1 → Parser.comparison fuel p1 = .ok (right, p2) →
      Parser.equality_loop (fuel + 1) expr p =
        Parser.equality_loop fuel (.Binary p2.line expr op right) p2) ∧
    (∀ (fuel : Nat) (expr : Expr) (p p1 : Parser) (right : Expr) (p2 : Parser),
      p.check_advance .Or = (true, p1) → Parser.logic_and fuel p1 = .ok (right, p2) →
      Parser.logic_or_loop (fuel + 1) expr p =
        Parser.logic_or_loop fuel (.Logical p2.line expr .Or right) p2) ∧
    (∀ (fuel : Nat) (expr : Expr) (p p1 : Parser) (right : Expr) (p2 : Parser),
      p.check_advance .And = (true, p1) → Parser.equality fuel p1 = .ok (right, p2) →
      Parser.logic_and_loop (fuel + 1) expr p =
        Parser.logic_and_loop fuel (.Logical p2.line expr .And right) p2) ∧
    (∀ (fuel : Nat) (p : Parser) (op : UnaryOperator) (p1 p2 : Parser) (e : Expr),
      (match p.peek.token_type with
       | TokenType.Bang => some UnaryOperator.Not
       | TokenType.Minus => some UnaryOperator.Negative
       | _ => none) = some op →
      p.advance = .ok p1 → Parser.unary fuel p1 = .ok (e, p2) →
      Parser.unary (fuel + 1) p = .ok (.Unary p1.line op e, p2)) ∧
    (∀ (fuel : Nat) (p : Parser) (line : Nat) (name : String) (p1 p2 p3 : Parser)
       (rhs : Expr),
      Parser.logic_or fuel p = .ok (.Variable line name, p1) →
      p1.check_advance .Equal = (true, p2) → Parser.assignment fuel p2 = .ok (rhs, p3) →
      Parser.assignment (fuel + 1) p = .ok (.Assign line name rhs, p3)) ∧
    (∀ (fuel : Nat) (p p1 p2 p3 : Parser) (e : Expr),
      p.peek.token_type = .LeftParen → p.advance = .ok p1 →
      Parser.expression fuel p1 = .ok (e, p2) →
      p2.consume .RightParen "Expecting `)`" = .ok p3 →
      Parser.primary (fuel + 1) p = .ok (.Grouping p.peek.line e, p3)) := by
  refine ⟨?_, ?_, ?_, ?_, ?_, ?_, ?_, ?_, ?_⟩
  · intro fuel expr p op p1 right p2 hop hadv hsub
    simp only [Parser.term_loop, hop, hadv, exceptBind_ok, hsub]
  · intro fuel expr p op p1 right p2 hop hadv hsub
    simp only [Parser.factor_loop, hop, hadv, exceptBind_ok, hsub]
  · intro fuel expr p op p1 right p2 hop hadv hsub
    simp only [Parser.comparison_loop, hop, hadv, exceptBind_ok, hsub]
  · intro fuel expr p op p1 right p2 hop hadv hsub
    simp only [Parser.equality_loop, hop, hadv, exceptBind_ok, hsub]
  · intro fuel expr p p1 right p2 hca hsub
    simp only [Parser.logic_or_loop, hca, exceptBind_ok, hsub]
    rfl
  · intro fuel expr p p1 right p2 hca hsub
    simp only [Parser.logic_and_loop, hca, exceptBind_ok, hsub]
    rfl
  · intro fuel p op p1 p2 e hop hadv hrec
    simp only [Parser.unary, hop, hadv, exceptBind_ok, hrec]
  · intro fuel p line name p1 p2 p3 rhs hlo hca hrhs
    simp only [Parser.assignment, hlo, exceptBind_ok, hca, hrhs]
    rfl
  · intro fuel p p1 p2 p3 e hpeek hadv hex hcons
    have hprev : p1.previous = p.peek := by
      unfold Parser.advance at hadv
      by_cases hend : p.is_at_end = true
      · rw [if_pos hend] at hadv
        simp at hadv
      · rw [if_neg hend] at hadv
        have h1 : { p with current := p.current + 1 } = p1 := Except.ok.inj hadv
        rw [← h1]
        show p.tokens.getD (p.current + 1 - 1) default = p.peek
        rfl
    simp only [Parser.primary, hadv, exceptBind_ok, hprev, hpeek, hex, hcons]

/-- Witness for C2's amended theorem, instantiating the binary, logical,
unary, assignment and grouping sites on two-line token streams: the binary
node is built with lookahead line 2 while its `+` operator is on line 1; the
logical node with lookahead line 2 while `and` is on line 1; the unary node
with the operand's line 2 while `!` is on line 1; the assignment node with
the target's line 1 while `=` is on line 2; the grouping node with the `(`
token's line 1. -/
theorem claim_C2_witness :
    (Parser.term_loop 101 (.Literal 1 (.Number 1))
        ⟨[⟨.Number, "1", 1⟩, ⟨.Plus, "+", 1⟩, ⟨.Number, "2", 2⟩, ⟨.Eof, "", 2⟩], 1⟩ =
      Parser.term_loop 100
        (.Binary (Parser.line ⟨[⟨.Number, "1", 1⟩, ⟨.Plus, "+", 1⟩, ⟨.Number, "2", 2⟩,
            ⟨.Eof, "", 2⟩], 3⟩) (.Literal 1 (.Number 1)) .Add (.Literal 2 (.Number 2)))
        ⟨[⟨.Number, "1", 1⟩, ⟨.Plus, "+", 1⟩, ⟨.Number, "2", 2⟩, ⟨.Eof, "", 2⟩], 3⟩) ∧
    Parser.line ⟨[⟨.Number, "1", 1⟩, ⟨.Plus, "+", 1⟩, ⟨.Number, "2", 2⟩, ⟨.Eof, "", 2⟩], 3⟩
      = 2 ∧
    (Parser.logic_and_loop 101 (.Variable 1 "x")
        ⟨[⟨.Identifier, "x", 1⟩, ⟨.And, "and", 1⟩, ⟨.Identifier, "y", 2⟩, ⟨.Eof, "", 2⟩], 1⟩ =
      Parser.logic_and_loop 100
        (.Logical (Parser.line ⟨[⟨.Identifier, "x", 1⟩, ⟨.And, "and", 1⟩,
            ⟨.Identifier, "y", 2⟩, ⟨.Eof, "", 2⟩], 3⟩) (.Variable 1 "x") .And (.Variable 2 "y"))
        ⟨[⟨.Identifier, "x", 1⟩, ⟨.And, "and", 1⟩, ⟨.Identifier, "y", 2⟩, ⟨.Eof, "", 2⟩], 3⟩) ∧
    (Parser.unary 101 ⟨[⟨.Bang, "!", 1⟩, ⟨.True, "true", 2⟩, ⟨.Eof, "", 2⟩], 0⟩ =
      .ok (.Unary (Parser.line ⟨[⟨.Bang, "!", 1⟩, ⟨.True, "true", 2⟩, ⟨.Eof, "", 2⟩], 1⟩)
        .Not (.Literal 2 .True), ⟨[⟨.Bang, "!", 1⟩, ⟨.True, "true", 2⟩, ⟨.Eof, "", 2⟩], 2⟩)) ∧
    Parser.line ⟨[⟨.Bang, "!", 1⟩, ⟨.True, "true", 2⟩, ⟨.Eof, "", 2⟩], 1⟩ = 2 ∧
    (Parser.assignment 101
        ⟨[⟨.Identifier, "x", 1⟩, ⟨.Equal, "=", 2⟩, ⟨.Number, "3", 2⟩, ⟨.Eof, "", 2⟩], 0⟩ =
      .ok (.Assign 1 "x" (.Literal 2 (.Number 3)),
        ⟨[⟨.Identifier, "x", 1⟩, ⟨.Equal, "=", 2⟩, ⟨.Number, "3", 2⟩, ⟨.Eof, "", 2⟩], 3⟩)) ∧
    (Parser.primary 101
        ⟨[⟨.LeftParen, "(", 1⟩, ⟨.Number, "1", 2⟩, ⟨.RightParen, ")", 3⟩, ⟨.Eof, "", 3⟩], 0⟩ =
      .ok (.Grouping (Parser.peek ⟨[⟨.LeftParen, "(", 1⟩, ⟨.Number, "1", 2⟩,
          ⟨.RightParen, ")", 3⟩, ⟨.Eof, "", 3⟩], 0⟩).line (.Literal 2 (.Number 1)),
        ⟨[⟨.LeftParen, "(", 1⟩, ⟨.Number, "1", 2⟩, ⟨.RightParen, ")", 3⟩, ⟨.Eof, "", 3⟩], 3⟩)) ∧
    (Parser.peek ⟨[⟨.LeftParen, "(", 1⟩, ⟨.Number, "1", 2⟩, ⟨.RightParen, ")", 3⟩,
        ⟨.Eof, "", 3⟩], 0⟩).line = 1 :=
  ⟨claim_C2_amended.1 100 (.Literal 1 (.Number 1)) _ .Add _ (.Literal 2 (.Number 2)) _
      (by rfl) (by rfl) (by rfl),
    rfl,
    claim_C2_amended.2.2.2.2.2.1 100 (.Variable 1 "x") _ _ (.Variable 2 "y") _
      (by rfl) (by rfl),
    claim_C2_amended.2.2.2.2.2.2.1 100 _ .Not _ _ (.Literal 2 .True)
      (by rfl) (by rfl) (by rfl),
    rfl,
    claim_C2_amended.2.2.2.2.2.2.2.1 100 _ 1 "x" _ _ _ (.Literal 2 (.Number 3))
      (by rfl) (by rfl) (by rfl),
    claim_C2_amended.2.2.2.2.2.2.2.2 100 _ _ _ _ (.Literal 2 (.Number 1))
      (by rfl) (by rfl) (by rfl) (by rfl),
    rfl⟩

/-! ## Evaluator lemmas -/

theorem setScopes_snd_length (scopes : List Scope) (name : String) (v : Value) :
    (setScopes scopes name v).2.length = scopes.length := by
  induction scopes with
  | nil => rfl
  | cons sc rest ih =>
    unfold setScopes
    by_cases h : scopeContains sc name = true
    · rw [if_pos h]
      simp
    · rw [if_neg h]
      simp [ih]

theorem set_scopes_length (env : Environment) (name : String) (v : Value) :
    ((env.set name v).2).scopes.length = env.scopes.length :=
  setScopes_snd_length env.scopes name v

theorem evaluate_scopes_length :
    ∀ e ctx, ((evaluate e ctx).2).scopes.length = ctx.scopes.length := by
  intro e
  induction e with
  | Literal line l => intro ctx; rfl
  | Variable line name =>
    intro ctx
    simp only [evaluate]
    split <;> rfl
  | Unary line op e ih =>
    intro ctx
    simp only [evaluate]
    split
    · rename_i x val ctx1 heq
      have h1 : ctx1.scopes.length = ctx.scopes.length := by
        have h := ih ctx
        rw [heq] at h
        exact h
      cases op with
      | Negative => cases expect_number val line <;> exact h1
      | Not => exact h1
    · rename_i x err ctx1 heq
      have h := ih ctx
      rw [heq] at h
      exact h
  | Binary line left op right ihl ihr =>
    intro ctx
    simp only [evaluate]
    split
    · rename_i x lv ctx1 heql
      have h1 : ctx1.scopes.length = ctx.scopes.length := by
        have h := ihl ctx
        rw [heql] at h
        exact h
      split
      · rename_i y rv ctx2 heqr
        have h2 : ctx2.scopes.length = ctx1.scopes.length := by
          have h := ihr ctx1
          rw [heqr] at h
          exact h
        exact h2.trans h1
      · rename_i y err ctx2 heqr
        have h2 : ctx2.scopes.length = ctx1.scopes.length := by
          have h := ihr ctx1
          rw [heqr] at h
          exact h
        exact h2.trans h1
    · rename_i x err ctx1 heql
      have h := ihl ctx
      rw [heql] at h
      exact h
  | Logical line left op right ihl ihr =>
    intro ctx
    simp only [evaluate]
    split
    · rename_i x lv ctx1 heql
      have h1 : ctx1.scopes.length = ctx.scopes.length := by
        have h := ihl ctx
        rw [heql] at h
        exact h
      split
      · exact (ihr ctx1).trans h1
      · exact h1
    · rename_i x err ctx1 heql
      have h := ihl ctx
      rw [heql] at h
      exact h
  | Grouping line e ih =>
    intro ctx
    simp only [evaluate]
    exact ih ctx
  | Assign line name rhs ih =>
    intro ctx
    simp only [evaluate]
    split
    · rename_i x v ctx1 heq
      have h1 : ctx1.scopes.length = ctx.scopes.length := by
        have h := ih ctx
        rw [heq] at h
        exact h
      split
      · exact (set_scopes_length ctx1 name v).trans h1
      · exact h1
    · rename_i x err ctx1 heq
      have h := ih ctx
      rw [heq] at h
      exact h

theorem evaluate_no_assign :
    ∀ e ctx, hasAssign e = false → (evaluate e ctx).2 = ctx := by
  intro e
  induction e with
  | Literal line l => intro ctx _; rfl
  | Variable line name =>
    intro ctx _
    simp only [evaluate]
    split <;> rfl
  | Unary line op e ih =>
    intro ctx hna
    simp only [evaluate]
    split
    · rename_i x val ctx1 heq
      have h1 : ctx1 = ctx := by
        have h := ih ctx (by simpa [hasAssign] using hna)
        rw [heq] at h
        exact h
      cases op with
      | Negative => cases expect_number val line <;> exact h1
      | Not => exact h1
    · rename_i x err ctx1 heq
      have h := ih ctx (by simpa [hasAssign] using hna)
      rw [heq] at h
      exact h
  | Binary line left op right ihl ihr =>
    intro ctx hna
    rw [hasAssign, Bool.or_eq_false_iff] at hna
    simp only [evaluate]
    split
    · rename_i x lv ctx1 heql
      have h1 : ctx1 = ctx := by
        have h := ihl ctx hna.1
        rw [heql] at h
        exact h
      split
      · rename_i y rv ctx2 heqr
        have h2 : ctx2 = ctx1 := by
          have h := ihr ctx1 hna.2
          rw [heqr] at h
          exact h
        show ctx2 = ctx
        exact h2.trans h1
      · rename_i y err ctx2 heqr
        have h2 : ctx2 = ctx1 := by
          have h := ihr ctx1 hna.2
          rw [heqr] at h
          exact h
        show ctx2 = ctx
        exact h2.trans h1
    · rename_i x err ctx1 heql
      have h := ihl ctx hna.1
      rw [heql] at h
      exact h
  | Logical line left op right ihl ihr =>
    intro ctx hna
    rw [hasAssign, Bool.or_eq_false_iff] at hna
    simp only [evaluate]
    split
    · rename_i x lv ctx1 heql
      have h1 : ctx1 = ctx := by
        have h := ihl ctx hna.1
        rw [heql] at h
        exact h
      split
      · exact (ihr ctx1 hna.2).trans h1
      · exact h1
    · rename_i x err ctx1 heql
      have h := ihl ctx hna.1
      rw [heql] at h
      exact h
  | Grouping line e ih =>
    intro ctx hna
    simp only [evaluate]
    exact ih ctx (by simpa [hasAssign] using hna)
  | Assign line name rhs ih =>
    intro ctx hna
    simp [hasAssign] at hna

theorem interpret_scopes :
    ∀ fuel : Nat,
      (∀ s ctx r, interpretStmt fuel s ctx = some r →
        (r.1 = .ok () → r.2.1.scopes.length = ctx.scopes.length) ∧
        (∀ e, r.1 = .error e → ctx.scopes.length ≤ r.2.1.scopes.length)) ∧
      (∀ ss ctx r, interpretStmts fuel ss ctx = some r →
        (r.1 = .ok () → r.2.1.scopes.length = ctx.scopes.length) ∧
        (∀ e, r.1 = .error e → ctx.scopes.length ≤ r.2.1.scopes.length)) := by
  intro fuel
  induction fuel with
  | zero =>
    constructor
    · intro s ctx r h
      simp [interpretStmt] at h
    · intro ss ctx r h
      simp [interpretStmts] at h
  | succ fuel ih =>
    obtain ⟨ihS, ihL⟩ := ih
    constructor
    · intro s ctx r h
      cases s with
      | Print e =>
        simp only [interpretStmt] at h
        split at h
        · rename_i x v ctxA heq
          have hlen : ctxA.scopes.length = ctx.scopes.length := by
            have h2 := evaluate_scopes_length e ctx
            rw [heq] at h2
            exact h2
          have hr := Option.some.inj h
          subst hr
          exact ⟨fun _ => hlen, fun e' he => by simp at he⟩
        · rename_i x err ctxA heq
          have hlen : ctxA.scopes.length = ctx.scopes.length := by
            have h2 := evaluate_scopes_length e ctx
            rw [heq] at h2
            exact h2
          have hr := Option.some.inj h
          subst hr
          exact ⟨fun hok => by simp at hok, fun e' _ => le_of_eq hlen.symm⟩
      | Expr e =>
        simp only [interpretStmt] at h
        split at h
        · rename_i x v ctxA heq
          have hlen : ctxA.scopes.length = ctx.scopes.length := by
            have h2 := evaluate_scopes_length e ctx
            rw [heq] at h2
            exact h2
          have hr := Option.some.inj h
          subst hr
          exact ⟨fun _ => hlen, fun e' he => by simp at he⟩
        · rename_i x err ctxA heq
          have hlen : ctxA.scopes.length = ctx.scopes.length := by
            have h2 := evaluate_scopes_length e ctx
            rw [heq] at h2
            exact h2
          have hr := Option.some.inj h
          subst hr
          exact ⟨fun hok => by simp at hok, fun e' _ => le_of_eq hlen.symm⟩
      | IfStmt condition then_branch else_branch =>
        simp only [interpretStmt] at h
        split at h
        · rename_i x v ctxA heq
          have hlen : ctxA.scopes.length = ctx.scopes.length := by
            have h2 := evaluate_scopes_length condition ctx
            rw [heq] at h2
            exact h2
          split at h
          · have hr := (ihS then_branch ctxA r h)
            exact ⟨fun hok => (hr.1 hok).trans hlen,
              fun e' he => le_of_le_of_eq' (hr.2 e' he) hlen.symm⟩
          · split at h
            · rename_i eb
              have hr := (ihS eb ctxA r h)
              exact ⟨fun hok => (hr.1 hok).trans hlen,
                fun e' he => le_of_le_of_eq' (hr.2 e' he) hlen.symm⟩
            · have hr := Option.some.inj h
              subst hr
              exact ⟨fun _ => hlen, fun e' he => by simp at he⟩
        · rename_i x err ctxA heq
          have hlen : ctxA.scopes.length = ctx.scopes.length := by
            have h2 := evaluate_scopes_length condition ctx
            rw [heq] at h2
            exact h2
          have hr := Option.some.inj h
          subst hr
          exact ⟨fun hok => by simp at hok, fun e' _ => le_of_eq hlen.symm⟩
      | Var name initializer =>
        cases initializer with
        | some e =>
          simp only [interpretStmt] at h
          split at h
          · rename_i x v ctxA heq
            have hlen : ctxA.scopes.length = ctx.scopes.length := by
              have h2 := evaluate_scopes_length e ctx
              rw [heq] at h2
              exact h2
            split at h
            · rename_i sc rest hscopes
              have hr := Option.some.inj h
              subst hr
              refine ⟨fun _ => ?_, fun e' he => by simp at he⟩
              show (scopeInsert sc name v :: rest).length = ctx.scopes.length
              rw [← hlen, hscopes]
              simp
            · have hr := Option.some.inj h
              subst hr
              exact ⟨fun _ => hlen, fun e' he => by simp at he⟩
          · rename_i x err ctxA heq
            have hlen : ctxA.scopes.length = ctx.scopes.length := by
              have h2 := evaluate_scopes_length e ctx
              rw [heq] at h2
              exact h2
            have hr := Option.some.inj h
            subst hr
            exact ⟨fun hok => by simp at hok, fun e' _ => le_of_eq hlen.symm⟩
        | none =>
          simp only [interpretStmt] at h
          split at h
          · rename_i sc rest hscopes
            have hr := Option.some.inj h
            subst hr
            refine ⟨fun _ => ?_, fun e' he => by simp at he⟩
            show (scopeInsert sc name .nil :: rest).length = ctx.scopes.length
            rw [hscopes]
            simp
          · have hr := Option.some.inj h
            subst hr
            exact ⟨fun _ => rfl, fun e' he => by simp at he⟩
      | Block stmts =>
        simp only [interpretStmt] at h
        split at h
        · rename_i x ctxA outA heq
          have hr := Option.some.inj h
          subst hr
          have hlen : ctxA.scopes.length = ctx.push.scopes.length :=
            (ihL stmts ctx.push (.ok (), ctxA, outA) heq).1 rfl
          have hlen2 : ctxA.scopes.length = ctx.scopes.length + 1 := by
            simpa [Environment.push] using hlen
          refine ⟨fun _ => ?_, fun e' he => by simp at he⟩
          show ctxA.scopes.tail.length = ctx.scopes.length
          rw [List.length_tail]
          omega
        · rename_i x err ctxA outA heq
          have hr := Option.some.inj h
          subst hr
          have hge : ctx.push.scopes.length ≤ ctxA.scopes.length :=
            (ihL stmts ctx.push (.error err, ctxA, outA) heq).2 err rfl
          have hge2 : ctx.scopes.length + 1 ≤ ctxA.scopes.length := by
            simpa [Environment.push] using hge
          refine ⟨fun hok => by simp at hok, fun e' _ => ?_⟩
          show ctx.scopes.length ≤ ctxA.scopes.length
          omega
        · simp at h
    · intro ss ctx r h
      cases ss with
      | nil =>
        simp only [interpretStmts] at h
        have hr := Option.some.inj h
        subst hr
        exact ⟨fun _ => rfl, fun e' he => by simp at he⟩
      | cons s rest =>
        simp only [interpretStmts] at h
        split at h
        · rename_i x ctxA out1 heq1
          split at h
          · rename_i y res2 ctxB out2 heq2
            have hr := Option.some.inj h
            subst hr
            have h1 : ctxA.scopes.length = ctx.scopes.length :=
              (ihS s ctx (.ok (), ctxA, out1) heq1).1 rfl
            have h2 : (res2 = .ok () → ctxB.scopes.length = ctxA.scopes.length) ∧
                (∀ e, res2 = .error e → ctxA.scopes.length ≤ ctxB.scopes.length) :=
              ihL rest ctxA (res2, ctxB, out2) heq2
            refine ⟨fun hok => ?_, fun e' he => ?_⟩
            · have h3 := h2.1 hok
              show ctxB.scopes.length = ctx.scopes.length
              omega
            · have h3 := h2.2 e' he
              show ctx.scopes.length ≤ ctxB.scopes.length
              omega
          · simp at h
        · rename_i x err ctxA out1 heq1
          have hr := Option.some.inj h
          subst hr
          have h1 : ctx.scopes.length ≤ ctxA.scopes.length :=
            (ihS s ctx (.error err, ctxA, out1) heq1).2 err rfl
          exact ⟨fun hok => by simp at hok, fun e' _ => h1⟩
        · simp at h

/-- C10: expression evaluation never changes the number of scopes, and an
expression containing no `Assign` node leaves the environment (every binding
in every scope) completely unchanged, whether evaluation succeeds or returns
a `RuntimeError`. -/
theorem claim_C10 :
    (∀ e ctx, ((evaluate e ctx).2).scopes.length = ctx.scopes.length) ∧
    (∀ e ctx, hasAssign e = false → (evaluate e ctx).2 = ctx) :=
  ⟨evaluate_scopes_length, evaluate_no_assign⟩

/-- Witness for C10: evaluating `x + 1` (no assignment; here it even ends in
a RuntimeError since `x` holds a string) leaves the environment unchanged. -/
theorem claim_C10_witness :
    hasAssign (.Binary 1 (.Variable 1 "x") .Add (.Literal 1 (.Number 1))) = false ∧
    (evaluate (.Binary 1 (.Variable 1 "x") .Add (.Literal 1 (.Number 1)))
      ⟨[[("x", .string "s")]]⟩).2 = ⟨[[("x", .string "s")]]⟩ :=
  ⟨rfl, claim_C10.2 (.Binary 1 (.Variable 1 "x") .Add (.Literal 1 (.Number 1)))
    ⟨[[("x", .string "s")]]⟩ rfl⟩

/-- C9: the scope stack never becomes empty during execution: expression
evaluation preserves the scope count exactly; a statement never shrinks the
stack below its entry size (so a non-empty stack stays non-empty, through
`Ok` and `Err` alike); and a whole program run, which starts from the
default environment with its one global scope, ends with a non-empty
stack. -/
theorem claim_C9 :
    (∀ e ctx, ((evaluate e ctx).2).scopes.length = ctx.scopes.length) ∧
    (∀ fuel s ctx r, interpretStmt fuel s ctx = some r →
      ctx.scopes.length ≤ r.2.1.scopes.length ∧
      (ctx.scopes ≠ [] → r.2.1.scopes ≠ [])) ∧
    (∀ fuel p r, interpretProgram fuel p = some r → r.2.1.scopes ≠ []) := by
  refine ⟨evaluate_scopes_length, ?_, ?_⟩
  · intro fuel s ctx r h
    have hr := (interpret_scopes fuel).1 s ctx r h
    have hle : ctx.scopes.length ≤ r.2.1.scopes.length := by
      cases hres : r.1 with
      | ok u =>
        cases u
        exact le_of_eq (hr.1 hres).symm
      | error e => exact hr.2 e hres
    refine ⟨hle, fun hne => ?_⟩
    have h1 : 0 < ctx.scopes.length := List.length_pos.2 hne
    exact List.length_pos.1 (by omega)
  · intro fuel p r h
    have hr := (interpret_scopes fuel).2 p.stmts Environment.default r h
    have hle : Environment.default.scopes.length ≤ r.2.1.scopes.length := by
      cases hres : r.1 with
      | ok u =>
        cases u
        exact le_of_eq (hr.1 hres).symm
      | error e => exact hr.2 e hres
    have h1 : Environment.default.scopes.length = 1 := rfl
    exact List.length_pos.1 (by omega)

/-- Witness for C9 at a concrete statement and environment. -/
theorem claim_C9_witness :
    interpretStmt 2 (.Print (.Literal 1 .Nil)) ⟨[[]]⟩ = some (.ok (), ⟨[[]]⟩, ["nil"]) ∧
    ((⟨[[]]⟩ : Environment).scopes.length ≤ (⟨[[]]⟩ : Environment).scopes.length ∧
      ((⟨[[]]⟩ : Environment).scopes ≠ [] → (⟨[[]]⟩ : Environment).scopes ≠ [])) :=
  ⟨rfl, claim_C9.2.1 2 (.Print (.Literal 1 .Nil)) ⟨[[]]⟩ (.ok (), ⟨[[]]⟩, ["nil"]) rfl⟩

/-- C1, counterexample: executing the block `{ y; }` (where `y` is
undefined) in a one-scope environment returns a RuntimeError with TWO scopes
on the stack: the `?` in the Rust `Block` arm propagates the error before
`ctx.pop()` runs, so the pushed scope is not popped on the error path,
refuting "the Environment has the same number of scopes as before the call"
for the `Err` case. -/
theorem claim_C1_cex :
    interpretStmt 10 (.Block [.Expr (.Variable 1 "y")]) ⟨[[]]⟩
      = some (.error ⟨1, "Undefined variable 'y'."⟩, ⟨[[], []]⟩, []) ∧
    (⟨[[], []]⟩ : Environment).scopes.length = 2 ∧
    (⟨[[]]⟩ : Environment).scopes.length = 1 ∧
    (2 : Nat) ≠ 1 :=
  ⟨by rfl, rfl, rfl, by decide⟩

/-- C1, amended: a `Block` statement pushes exactly one scope; when every
statement in it succeeds the scope is popped and the scope count is restored
exactly; but when a statement returns a RuntimeError the error propagates
before the pop, so the stack keeps at least one extra scope (exactly the
pushed one, plus any scopes inner unwound blocks also failed to pop).  Since
a RuntimeError aborts the whole program, the leaked scope is never
observable. -/
theorem claim_C1_amended (fuel : Nat) (stmts : List Stmt) (ctx : Environment)
    (r : Except RuntimeError Unit × Environment × List String)
    (h : interpretStmt (fuel + 1) (.Block stmts) ctx = some r) :
    (r.1 = .ok () → r.2.1.scopes.length = ctx.scopes.length) ∧
    (∀ e, r.1 = .error e → ctx.scopes.length + 1 ≤ r.2.1.scopes.length) := by
  simp only [interpretStmt] at h
  split at h
  · rename_i x ctxA outA heq
    have hr := Option.some.inj h
    subst hr
    have hlen : ctxA.scopes.length = ctx.push.scopes.length :=
      ((interpret_scopes fuel).2 stmts ctx.push (.ok (), ctxA, outA) heq).1 rfl
    have hlen2 : ctxA.scopes.length = ctx.scopes.length + 1 := by
      simpa [Environment.push] using hlen
    refine ⟨fun _ => ?_, fun e' he => by simp at he⟩
    show ctxA.scopes.tail.length = ctx.scopes.length
    rw [List.length_tail]
    omega
  · rename_i x err ctxA outA heq
    have hr := Option.some.inj h
    subst hr
    have hge : ctx.push.scopes.length ≤ ctxA.scopes.length :=
      ((interpret_scopes fuel).2 stmts ctx.push (.error err, ctxA, outA) heq).2 err rfl
    have hge2 : ctx.scopes.length + 1 ≤ ctxA.scopes.length := by
      simpa [Environment.push] using hge
    refine ⟨fun hok => by simp at hok, fun e' _ => hge2⟩
  · simp at h

/-- Witness for C1's amended theorem: the failing block of the
counterexample leaves 1 + 1 = 2 scopes, and a succeeding block restores the
count. -/
theorem claim_C1_witness :
    interpretStmt 10 (.Block [.Expr (.Variable 1 "y")]) ⟨[[]]⟩
      = some (.error ⟨1, "Undefined variable 'y'."⟩, ⟨[[], []]⟩, []) ∧
    ((⟨[[]]⟩ : Environment).scopes.length + 1 ≤ (⟨[[], []]⟩ : Environment).scopes.length) ∧
    interpretStmt 10 (.Block [.Expr (.Literal 1 .Nil)]) ⟨[[]]⟩ = some (.ok (), ⟨[[]]⟩, []) ∧
    ((⟨[[]]⟩ : Environment).scopes.length = (⟨[[]]⟩ : Environment).scopes.length) :=
  ⟨rfl,
    (claim_C1_amended 9 [.Expr (.Variable 1 "y")] ⟨[[]]⟩
      (.error ⟨1, "Undefined variable 'y'."⟩, ⟨[[], []]⟩, []) rfl).2
        ⟨1, "Undefined variable 'y'."⟩ rfl,
    rfl,
    (claim_C1_amended 9 [.Expr (.Literal 1 .Nil)] ⟨[[]]⟩
      (.ok (), ⟨[[]]⟩, []) rfl).1 rfl⟩

/-- C5: `+` on two evaluated operands: Number+Number adds, String+String
concatenates, a Number left with a non-Number right errors "Expecting a
number", a String left with a non-String right errors "Expecting a string",
and any other left operand errors "Expecting a number or a string"; the
match is total, so no other outcome exists. -/
theorem claim_C5 (line : Nat) (l r : Expr) (ctx ctx1 ctx2 : Environment) (vl vr : Value)
    (hl : evaluate l ctx = (.ok vl, ctx1)) (hr : evaluate r ctx1 = (.ok vr, ctx2)) :
    evaluate (.Binary line l .Add r) ctx =
      ((match vl, vr with
        | .number a, .number b => Except.ok (Value.number (a + b))
        | .number _, _ => Except.error ⟨line, "Expecting a number"⟩
        | .string a, .string b => Except.ok (Value.string (a ++ b))
        | .string _, _ => Except.error ⟨line, "Expecting a string"⟩
        | _, _ => Except.error ⟨line, "Expecting a number or a string"⟩), ctx2) := by
  simp only [evaluate, hl, hr]
  cases vl <;> cases vr <;> simp [expect_number]

/-- Witness for C5 at concrete operands: number sum, string concatenation,
and both mismatch errors. -/
theorem claim_C5_witness :
    evaluate (.Literal 1 (.Number 1)) ⟨[[]]⟩ = (.ok (.number 1), ⟨[[]]⟩) ∧
    evaluate (.Binary 1 (.Literal 1 (.Number 1)) .Add (.Literal 1 (.Number 2))) ⟨[[]]⟩
      = (.ok (.number (1 + 2)), ⟨[[]]⟩) ∧
    evaluate (.Binary 1 (.Literal 1 (.String "a")) .Add (.Literal 1 (.String "b"))) ⟨[[]]⟩
      = (.ok (.string ("a" ++ "b")), ⟨[[]]⟩) ∧
    evaluate (.Binary 1 (.Literal 1 (.Number 1)) .Add (.Literal 1 (.String "a"))) ⟨[[]]⟩
      = (.error ⟨1, "Expecting a number"⟩, ⟨[[]]⟩) ∧
    evaluate (.Binary 1 (.Literal 1 (.String "a")) .Add (.Literal 1 .Nil)) ⟨[[]]⟩
      = (.error ⟨1, "Expecting a string"⟩, ⟨[[]]⟩) ∧
    evaluate (.Binary 1 (.Literal 1 .Nil) .Add (.Literal 1 (.Number 1))) ⟨[[]]⟩
      = (.error ⟨1, "Expecting a number or a string"⟩, ⟨[[]]⟩) :=
  ⟨rfl,
    claim_C5 1 (.Literal 1 (.Number 1)) (.Literal 1 (.Number 2)) ⟨[[]]⟩ ⟨[[]]⟩ ⟨[[]]⟩
      (.number 1) (.number 2) rfl rfl,
    claim_C5 1 (.Literal 1 (.String "a")) (.Literal 1 (.String "b")) ⟨[[]]⟩ ⟨[[]]⟩ ⟨[[]]⟩
      (.string "a") (.string "b") rfl rfl,
    claim_C5 1 (.Literal 1 (.Number 1)) (.Literal 1 (.String "a")) ⟨[[]]⟩ ⟨[[]]⟩ ⟨[[]]⟩
      (.number 1) (.string "a") rfl rfl,
    claim_C5 1 (.Literal 1 (.String "a")) (.Literal 1 .Nil) ⟨[[]]⟩ ⟨[[]]⟩ ⟨[[]]⟩
      (.string "a") .nil rfl rfl,
    claim_C5 1 (.Literal 1 .Nil) (.Literal 1 (.Number 1)) ⟨[[]]⟩ ⟨[[]]⟩ ⟨[[]]⟩
      .nil (.number 1) rfl rfl⟩

/-- C6: Nil and Bool(false) are exactly the falsy values, and a logical
expression first evaluates its left operand; the right operand is evaluated
iff (`and`) the left is truthy / (`or`) the left is falsy, the result
otherwise being the left operand's raw value — with no boolean coercion in
either case (the quantification over `r` shows the right operand plays no
role when short-circuited). -/
theorem claim_C6 :
    (∀ v, to_bool v = false ↔ (v = .nil ∨ v = .bool false)) ∧
    (∀ (line : Nat) (l : Expr) (op : LogicalOperator) (r : Expr) ctx v ctx1,
      evaluate l ctx = (.ok v, ctx1) →
      evaluate (.Logical line l op r) ctx =
        (if (match op with | .And => to_bool v | .Or => !to_bool v) = true
         then evaluate r ctx1 else (.ok v, ctx1))) := by
  constructor
  · intro v
    cases v with
    | nil => simp [to_bool]
    | bool b => cases b <;> simp [to_bool]
    | number x => simp [to_bool]
    | string s => simp [to_bool]
  · intro line l op r ctx v ctx1 h
    simp only [evaluate, h]

/-- Witness for C6: `nil and boom` short-circuits to nil (the undefined
variable `boom` is never evaluated), `0 or boom` short-circuits to the raw
value 0 (0 is truthy), and nil is falsy. -/
theorem claim_C6_witness :
    evaluate (.Literal 1 .Nil) ⟨[[]]⟩ = (.ok .nil, ⟨[[]]⟩) ∧
    evaluate (.Logical 1 (.Literal 1 .Nil) .And (.Variable 1 "boom")) ⟨[[]]⟩
      = (.ok .nil, ⟨[[]]⟩) ∧
    evaluate (.Logical 1 (.Literal 1 (.Number 0)) .Or (.Variable 1 "boom")) ⟨[[]]⟩
      = (.ok (.number 0), ⟨[[]]⟩) ∧
    (to_bool .nil = false ↔ (Value.nil = .nil ∨ Value.nil = .bool false)) :=
  ⟨rfl,
    claim_C6.2 1 (.Literal 1 .Nil) .And (.Variable 1 "boom") ⟨[[]]⟩ .nil ⟨[[]]⟩ rfl,
    claim_C6.2 1 (.Literal 1 (.Number 0)) .Or (.Variable 1 "boom") ⟨[[]]⟩ (.number 0) ⟨[[]]⟩ rfl,
    claim_C6.1 .nil⟩

theorem scopeGet_scopeInsert_self (sc : Scope) (name : String) (v : Value) :
    scopeGet (scopeInsert sc name v) name = some v := by
  induction sc with
  | nil => simp [scopeInsert, scopeGet]
  | cons kv rest ih =>
    unfold scopeInsert
    by_cases h : kv.1 = name
    · simp [scopeGet, h]
    · simp [scopeGet, h, ih]

theorem scopeInsert_keys (sc : Scope) (name : String) (v : Value)
    (h : scopeContains sc name = true) :
    (scopeInsert sc name v).map Prod.fst = sc.map Prod.fst := by
  induction sc with
  | nil => simp [scopeContains, scopeGet] at h
  | cons kv rest ih =>
    unfold scopeInsert
    by_cases hk : kv.1 = name
    · simp [hk]
    · have h2 : scopeContains rest name = true := by
        simp [scopeContains, scopeGet, hk] at h
        simpa [scopeContains] using h
      simp [hk, ih h2]

theorem setScopes_not_found (scopes : List Scope) (name : String) (v : Value)
    (h : ∀ sc ∈ scopes, scopeContains sc name = false) :
    setScopes scopes name v = (false, scopes) := by
  induction scopes with
  | nil => rfl
  | cons sc rest ih =>
    unfold setScopes
    rw [if_neg (by simp [h sc (List.mem_cons_self _ _)])]
    rw [ih (fun sc2 hmem => h sc2 (List.mem_cons_of_mem _ hmem))]

theorem setScopes_found (scopes : List Scope) (name : String) (v : Value) :
    ∀ i, i < scopes.length →
      scopeContains (scopes.getD i []) name = true →
      (∀ j, j < i → scopeContains (scopes.getD j []) name = false) →
      setScopes scopes name v = (true, scopes.set i (scopeInsert (scopes.getD i []) name v)) := by
  induction scopes with
  | nil => intro i hi; simp at hi
  | cons sc rest ih =>
    intro i hi hcont hmin
    cases i with
    | zero =>
      have hc : scopeContains sc name = true := by simpa using hcont
      unfold setScopes
      rw [if_pos hc]
      simp
    | succ i =>
      have h0 : scopeContains sc name = false := by simpa using hmin 0 (Nat.succ_pos i)
      have hcont2 : scopeContains (rest.getD i []) name = true := by simpa using hcont
      have hmin2 : ∀ j, j < i → scopeContains (rest.getD j []) name = false := by
        intro j hj
        simpa using hmin (j + 1) (by omega)
      unfold setScopes
      rw [if_neg (by simp [h0])]
      rw [ih i (by simpa using hi) hcont2 hmin2]
      simp

/-- C4: assignment, after its right-hand side has evaluated to `v` in
environment `ctx1` (index 0 of `Environment.scopes` is the innermost
scope): if no scope binds the name, evaluation returns the RuntimeError
"Variable '<name>' not declared before assignment" and leaves the scopes
unchanged; if `i` is the innermost scope that binds the name, evaluation
returns `v`, and the environment differs only at scope `i`
(`List.set`-updated), whose binding for the name now holds `v` while its
key set is unchanged — so no new binding is ever created. -/
theorem claim_C4 (line : Nat) (name : String) (rhs : Expr) (ctx ctx1 : Environment) (v : Value)
    (h : evaluate rhs ctx = (.ok v, ctx1)) :
    ((∀ sc ∈ ctx1.scopes, scopeContains sc name = false) →
      evaluate (.Assign line name rhs) ctx
        = (.error ⟨line, "Variable '" ++ name ++ "' not declared before assignment"⟩, ctx1)) ∧
    (∀ i, i < ctx1.scopes.length →
      scopeContains (ctx1.scopes.getD i []) name = true →
      (∀ j, j < i → scopeContains (ctx1.scopes.getD j []) name = false) →
      evaluate (.Assign line name rhs) ctx
          = (.ok v, ⟨ctx1.scopes.set i (scopeInsert (ctx1.scopes.getD i []) name v)⟩) ∧
        scopeGet (scopeInsert (ctx1.scopes.getD i []) name v) name = some v ∧
        (scopeInsert (ctx1.scopes.getD i []) name v).map Prod.fst
          = (ctx1.scopes.getD i []).map Prod.fst) := by
  constructor
  · intro hnone
    have hset := setScopes_not_found ctx1.scopes name v hnone
    simp only [evaluate, h, Environment.set, hset]
    rfl
  · intro i hi hcont hmin
    have hset := setScopes_found ctx1.scopes name v i hi hcont hmin
    refine ⟨?_, scopeGet_scopeInsert_self _ _ _, scopeInsert_keys _ _ _ hcont⟩
    simp only [evaluate, h, Environment.set, hset]
    rfl

/-- Witness for C4: with scopes `[x↦nil] :: [x↦1, y↦nil]` (innermost
first), `x = "z"` overwrites only the innermost `x`, keeping the outer one
and creating no binding; with a single scope binding only `y`, `x = "z"` is
the not-declared RuntimeError. -/
theorem claim_C4_witness :
    evaluate (.Literal 1 (.String "z")) ⟨[[("x", .nil)], [("x", .number 1), ("y", .nil)]]⟩
      = (.ok (.string "z"), ⟨[[("x", .nil)], [("x", .number 1), ("y", .nil)]]⟩) ∧
    (evaluate (.Assign 1 "x" (.Literal 1 (.String "z")))
        ⟨[[("x", .nil)], [("x", .number 1), ("y", .nil)]]⟩
      = (.ok (.string "z"), ⟨[[("x", .string "z")], [("x", .number 1), ("y", .nil)]]⟩) ∧
      scopeGet (scopeInsert [("x", Value.nil)] "x" (.string "z")) "x" = some (.string "z") ∧
      (scopeInsert [("x", Value.nil)] "x" (.string "z")).map Prod.fst
        = ([("x", Value.nil)] : Scope).map Prod.fst) ∧
    evaluate (.Assign 1 "x" (.Literal 1 (.String "z"))) ⟨[[("y", .nil)]]⟩
      = (.error ⟨1, "Variable 'x' not declared before assignment"⟩, ⟨[[("y", .nil)]]⟩) :=
  ⟨rfl,
    (claim_C4 1 "x" (.Literal 1 (.String "z"))
        ⟨[[("x", .nil)], [("x", .number 1), ("y", .nil)]]⟩
        ⟨[[("x", .nil)], [("x", .number 1), ("y", .nil)]]⟩ (.string "z") rfl).2
      0 (by decide) (by decide) (fun j hj => absurd hj (by omega)),
    (claim_C4 1 "x" (.Literal 1 (.String "z")) ⟨[[("y", .nil)]]⟩ ⟨[[("y", .nil)]]⟩
        (.string "z") rfl).1 (by decide)⟩

/-- C7: running `var x = 1; { var x = 2; } print x;` through the whole
pipeline (scan, parse, interpret) succeeds and prints the single line `1`:
the block's `var x = 2` shadows the outer `x` in the block's own scope and
is discarded when the block exits, leaving the outer binding untouched. -/
theorem claim_C7 :
    runSource "var x = 1; { var x = 2; } print x;" = some (.ok (), ["1"]) := by
  have h1 : tokenize "var x = 1; { var x = 2; } print x;" = some (c7toks, false) := by rfl
  unfold runSource
  rw [h1]
  rfl
